import Mathlib

/-!
Verification of the msgpack-schema codec: an embedding of the MessagePack
wire codec, the `Int`/`Value` data model and the derive-macro decode/encode
templates, with theorems about round-trips, error classes and termination.
-/

set_option maxRecDepth 2000
set_option maxHeartbeats 1000000
namespace Msgpack

/-- The extended-range integer `Int { sign: bool, value: u64 }` from
msgpack-value/src/lib.rs.  `value` is the u64 bit pattern, held as a `Nat`. -/
structure RInt where
  sign : Bool
  value : Nat
  deriving DecidableEq, Repr

/-- `impl From<u64> for Int`. -/
def intFromU64 (v : Nat) : RInt := ⟨false, v⟩

/-- `impl From<i64> for Int`: non-negative goes through `From<u64>`,
negative keeps `v as u64 = v + 2^64`. -/
def intFromI64 (v : Int) : RInt :=
  if 0 ≤ v then intFromU64 v.toNat else ⟨true, (v + 2 ^ 64).toNat⟩

/-- `impl From<u32> for Int` routes through `From<u64>`. -/
def intFromU32 (v : Nat) : RInt := intFromU64 v

/-- `impl From<i32> for Int` routes through `From<i64>`. -/
def intFromI32 (v : Int) : RInt := intFromI64 v

/-- Reinterpretation of a u64 bit pattern as an i64 (`value as i64`). -/
def asI64 (n : Nat) : Int :=
  if n < 2 ^ 63 then (n : Int) else (n : Int) - 2 ^ 64

/-- `impl TryFrom<Int> for u64`: succeeds iff `!sign`. -/
def tryIntoU64 (i : RInt) : Option Nat :=
  if i.sign then none else some i.value

/-- `impl TryFrom<Int> for i64`: if `sign`, reinterpret the bits; else
require the reinterpretation to be non-negative. -/
def tryIntoI64 (i : RInt) : Option Int :=
  if i.sign then some (asI64 i.value)
  else if 0 ≤ asI64 i.value then some (asI64 i.value) else none

/-- `impl TryFrom<Int> for u32`: through u64 then a range re-check. -/
def tryIntoU32 (i : RInt) : Option Nat :=
  match tryIntoU64 i with
  | none => none
  | some n => if n < 2 ^ 32 then some n else none

/-- The representation invariant documented on `Int.value`:
whenever `sign` is true, bit 63 of `value` is set; `value` fits in 64 bits. -/
def RInt.valid (i : RInt) : Prop :=
  i.value < 2 ^ 64 ∧ (i.sign = true → 2 ^ 63 ≤ i.value)

instance : DecidablePred RInt.valid := fun i => by
  unfold RInt.valid; infer_instance

/-- The mathematical integer denoted by an `Int`. -/
def RInt.toZ (i : RInt) : Int :=
  if i.sign then (i.value : Int) - 2 ^ 64 else (i.value : Int)

/-! ### Byte-level primitives

Bytes are natural numbers < 256.  Multi-byte fields are big-endian
(`byteorder::BigEndian` on the read side, the MessagePack marker table on
the write side). -/

/-- Big-endian encoding of `n` into `w` bytes. -/
def beBytes : Nat → Nat → List Nat
  | 0, _ => []
  | w + 1, n => n / 256 ^ w % 256 :: beBytes w (n % 256 ^ w)

/-- Big-endian read of `w` bytes from the front of the input
(`read_u8`/`read_u16`/`read_u32`/`read_u64` with `BigEndian`). -/
def beRead : Nat → List Nat → Option (Nat × List Nat)
  | 0, r => some (0, r)
  | _ + 1, [] => none
  | w + 1, b :: r =>
    match beRead w r with
    | none => none
    | some (n, r') => some (b * 256 ^ w + n, r')

/-- `self.r.get(0..len)` followed by `self.r = self.r.get(len..)`. -/
def takeBytes (len : Nat) (r : List Nat) : Option (List Nat × List Nat) :=
  if len ≤ r.length then some (r.take len, r.drop len) else none

/-- The two error classes of `DeserializeError`:
wire-level `InvalidInputError` and schema-level `ValidationError`. -/
inductive RErr where
  | invalidInput
  | validation
  deriving DecidableEq, Repr

/-- The `Token` enum of src/lib.rs.  Float payloads are kept as their raw
big-endian bit patterns (a `u32`/`u64` as `Nat`). -/
inductive RToken where
  | nil
  | bool (b : Bool)
  | int (i : RInt)
  | f32 (bits : Nat)
  | f64 (bits : Nat)
  | str (data : List Nat)
  | bin (data : List Nat)
  | array (len : Nat)
  | map (len : Nat)
  | ext (tag : Int) (data : List Nat)
  deriving DecidableEq, Repr

/-- Sign-extension: reinterpret a `w`-byte unsigned value as a signed one. -/
def sext (w : Nat) (n : Nat) : Int :=
  if n < 256 ^ w / 2 then (n : Int) else (n : Int) - (256 ^ w : Nat)

/-- Read an unsigned integer payload of `w` bytes (markers u8/u16/u32/u64);
the result goes through `Int::from` on the unsigned side. -/
def readUintPayload (w : Nat) (r : List Nat) : Except RErr (RToken × List Nat) :=
  match beRead w r with
  | none => .error .invalidInput
  | some (n, r') => .ok (.int (intFromU64 n), r')

/-- Read a signed integer payload of `w` bytes (markers i8/i16/i32/i64);
the result goes through `Int::from` on the signed side. -/
def readIntPayload (w : Nat) (r : List Nat) : Except RErr (RToken × List Nat) :=
  match beRead w r with
  | none => .error .invalidInput
  | some (n, r') => .ok (.int (intFromI64 (sext w n)), r')

/-- Read a string payload of `len` bytes. -/
def readStrPayload (len : Nat) (r : List Nat) : Except RErr (RToken × List Nat) :=
  match takeBytes len r with
  | none => .error .invalidInput
  | some (d, r') => .ok (.str d, r')

/-- Read a binary payload of `len` bytes. -/
def readBinPayload (len : Nat) (r : List Nat) : Except RErr (RToken × List Nat) :=
  match takeBytes len r with
  | none => .error .invalidInput
  | some (d, r') => .ok (.bin d, r')

/-- Read an ext payload: the i8 type tag followed by `len` data bytes. -/
def readExtPayload (len : Nat) : List Nat → Except RErr (RToken × List Nat)
  | [] => .error .invalidInput
  | t :: r =>
    match takeBytes len r with
    | none => .error .invalidInput
    | some (d, r') => .ok (.ext (sext 1 t) d, r')

/-- Read a `w`-byte length field, then hand it to a payload reader. -/
def readLenThen (w : Nat) (k : Nat → List Nat → Except RErr (RToken × List Nat))
    (r : List Nat) : Except RErr (RToken × List Nat) :=
  match beRead w r with
  | none => .error .invalidInput
  | some (len, r') => k len r'

/-- The `rmp::Marker` enum: the marker-table classification of the first
byte, modelled from the spec's bit-exact marker list.  `overflow` stands
for values ≥ 0x100 which a Rust `u8` cannot take. -/
inductive RMarker where
  | fixPos (v : Nat)
  | fixMap (len : Nat)
  | fixArray (len : Nat)
  | fixStr (len : Nat)
  | mnil
  | reserved
  | boolFalse
  | boolTrue
  | bin8
  | bin16
  | bin32
  | ext8
  | ext16
  | ext32
  | mf32
  | mf64
  | u8
  | u16
  | u32
  | u64
  | i8
  | i16
  | i32
  | i64
  | fixExt1
  | fixExt2
  | fixExt4
  | fixExt8
  | fixExt16
  | str8
  | str16
  | str32
  | array16
  | array32
  | map16
  | map32
  | fixNeg (v : Int)
  | overflow
  deriving DecidableEq, Repr

/-- `rmp::Marker::from_u8` (modelled from the spec's marker table). -/
def markerOf (b : Nat) : RMarker :=
  if b ≤ 0x7f then .fixPos b
  else if b ≤ 0x8f then .fixMap (b - 0x80)
  else if b ≤ 0x9f then .fixArray (b - 0x90)
  else if b ≤ 0xbf then .fixStr (b - 0xa0)
  else if b = 0xc0 then .mnil
  else if b = 0xc1 then .reserved
  else if b = 0xc2 then .boolFalse
  else if b = 0xc3 then .boolTrue
  else if b = 0xc4 then .bin8
  else if b = 0xc5 then .bin16
  else if b = 0xc6 then .bin32
  else if b = 0xc7 then .ext8
  else if b = 0xc8 then .ext16
  else if b = 0xc9 then .ext32
  else if b = 0xca then .mf32
  else if b = 0xcb then .mf64
  else if b = 0xcc then .u8
  else if b = 0xcd then .u16
  else if b = 0xce then .u32
  else if b = 0xcf then .u64
  else if b = 0xd0 then .i8
  else if b = 0xd1 then .i16
  else if b = 0xd2 then .i32
  else if b = 0xd3 then .i64
  else if b = 0xd4 then .fixExt1
  else if b = 0xd5 then .fixExt2
  else if b = 0xd6 then .fixExt4
  else if b = 0xd7 then .fixExt8
  else if b = 0xd8 then .fixExt16
  else if b = 0xd9 then .str8
  else if b = 0xda then .str16
  else if b = 0xdb then .str32
  else if b = 0xdc then .array16
  else if b = 0xdd then .array32
  else if b = 0xde then .map16
  else if b = 0xdf then .map32
  else if b ≤ 0xff then .fixNeg ((b : Int) - 256)
  else .overflow

/-- `Deserializer::deserialize_token`: read one marker byte, dispatch per
the marker table, and consume the payload. -/
def readToken : List Nat → Except RErr (RToken × List Nat)
  | [] => .error .invalidInput
  | b :: r =>
    match markerOf b with
    | .fixPos v => .ok (.int (intFromU64 v), r)
    | .fixMap len => .ok (.map len, r)
    | .fixArray len => .ok (.array len, r)
    | .fixStr len => readStrPayload len r
    | .mnil => .ok (.nil, r)
    | .reserved => .error .invalidInput
    | .boolFalse => .ok (.bool false, r)
    | .boolTrue => .ok (.bool true, r)
    | .bin8 => readLenThen 1 readBinPayload r
    | .bin16 => readLenThen 2 readBinPayload r
    | .bin32 => readLenThen 4 readBinPayload r
    | .ext8 => readLenThen 1 readExtPayload r
    | .ext16 => readLenThen 2 readExtPayload r
    | .ext32 => readLenThen 4 readExtPayload r
    | .mf32 =>
      match beRead 4 r with
      | none => .error .invalidInput
      | some (bits, r') => .ok (.f32 bits, r')
    | .mf64 =>
      match beRead 8 r with
      | none => .error .invalidInput
      | some (bits, r') => .ok (.f64 bits, r')
    | .u8 => readUintPayload 1 r
    | .u16 => readUintPayload 2 r
    | .u32 => readUintPayload 4 r
    | .u64 => readUintPayload 8 r
    | .i8 => readIntPayload 1 r
    | .i16 => readIntPayload 2 r
    | .i32 => readIntPayload 4 r
    | .i64 => readIntPayload 8 r
    | .fixExt1 => readExtPayload 1 r
    | .fixExt2 => readExtPayload 2 r
    | .fixExt4 => readExtPayload 4 r
    | .fixExt8 => readExtPayload 8 r
    | .fixExt16 => readExtPayload 16 r
    | .str8 => readLenThen 1 readStrPayload r
    | .str16 => readLenThen 2 readStrPayload r
    | .str32 => readLenThen 4 readStrPayload r
    | .array16 => readLenThen 2 (fun len r' => .ok (.array len, r')) r
    | .array32 => readLenThen 4 (fun len r' => .ok (.array len, r')) r
    | .map16 => readLenThen 2 (fun len r' => .ok (.map len, r')) r
    | .map32 => readLenThen 4 (fun len r' => .ok (.map len, r')) r
    | .fixNeg v => .ok (.int (intFromI64 v), r)
    | .overflow => .error .invalidInput

/-! ### The binary writer

`Serializer` methods from src/lib.rs.  The narrowest-marker selection done
by the external `rmp::encode` crate is modelled from the spec:
fixint for −32..127, else minimal signed/unsigned width; fixstr/str8/16/32,
bin8/16/32, fixarray/array16/32, fixmap/map16/32, fixext1/2/4/8/16 and
ext8/16/32; all multi-byte fields big-endian. -/

/-- `rmp::encode::write_uint`: narrowest unsigned encoding. -/
def writeUint (n : Nat) : List Nat :=
  if n < 128 then [n]
  else if n < 256 then 0xcc :: beBytes 1 n
  else if n < 2 ^ 16 then 0xcd :: beBytes 2 n
  else if n < 2 ^ 32 then 0xce :: beBytes 4 n
  else 0xcf :: beBytes 8 n

/-- `rmp::encode::write_sint`: negative fixint or minimal signed width for
negative values, `write_uint` for non-negative ones. -/
def writeSint (z : Int) : List Nat :=
  if 0 ≤ z then writeUint z.toNat
  else if -32 ≤ z then [(z + 256).toNat]
  else if -(2 ^ 7) ≤ z then 0xd0 :: beBytes 1 (z + 2 ^ 8).toNat
  else if -(2 ^ 15) ≤ z then 0xd1 :: beBytes 2 (z + 2 ^ 16).toNat
  else if -(2 ^ 31) ≤ z then 0xd2 :: beBytes 4 (z + 2 ^ 32).toNat
  else 0xd3 :: beBytes 8 (z + 2 ^ 64).toNat

/-- `Serializer::serialize_nil`. -/
def writeNil : List Nat := [0xc0]

/-- `Serializer::serialize_bool`. -/
def writeBool (b : Bool) : List Nat := [if b then 0xc3 else 0xc2]

/-- `Serializer::serialize_int`: signed path when the value fits an i64,
unsigned path otherwise. -/
def serialize_int (i : RInt) : List Nat :=
  match tryIntoI64 i with
  | some z => writeSint z
  | none => writeUint i.value

/-- `Serializer::serialize_f32` (payload = raw bits, big-endian). -/
def writeF32 (bits : Nat) : List Nat := 0xca :: beBytes 4 bits

/-- `Serializer::serialize_f64` (payload = raw bits, big-endian). -/
def writeF64 (bits : Nat) : List Nat := 0xcb :: beBytes 8 bits

/-- `Serializer::serialize_str`: `write_str_len(len as u32)` then the raw
bytes.  The `as u32` cast is the `% 2 ^ 32`. -/
def writeStr (d : List Nat) : List Nat :=
  let len := d.length % 2 ^ 32
  (if len < 32 then [0xa0 + len]
   else if len < 256 then 0xd9 :: beBytes 1 len
   else if len < 2 ^ 16 then 0xda :: beBytes 2 len
   else 0xdb :: beBytes 4 len) ++ d

/-- `Serializer::serialize_bin` (`rmp::encode::write_bin`). -/
def writeBin (d : List Nat) : List Nat :=
  let len := d.length % 2 ^ 32
  (if len < 256 then 0xc4 :: beBytes 1 len
   else if len < 2 ^ 16 then 0xc5 :: beBytes 2 len
   else 0xc6 :: beBytes 4 len) ++ d

/-- `Serializer::serialize_array` header. -/
def writeArrayLen (len : Nat) : List Nat :=
  if len < 16 then [0x90 + len]
  else if len < 2 ^ 16 then 0xdc :: beBytes 2 len
  else 0xdd :: beBytes 4 len

/-- `Serializer::serialize_map` header. -/
def writeMapLen (len : Nat) : List Nat :=
  if len < 16 then [0x80 + len]
  else if len < 2 ^ 16 then 0xde :: beBytes 2 len
  else 0xdf :: beBytes 4 len

/-- `Serializer::serialize_ext` (`write_ext_meta` then the data): fixext
for data lengths 1/2/4/8/16, else ext8/16/32; the i8 type tag follows the
length and precedes the data. -/
def writeExt (tag : Int) (d : List Nat) : List Nat :=
  let len := d.length % 2 ^ 32
  let tb := (tag % 256).toNat
  (if len = 1 then [0xd4]
   else if len = 2 then [0xd5]
   else if len = 4 then [0xd6]
   else if len = 8 then [0xd7]
   else if len = 16 then [0xd8]
   else if len < 256 then 0xc7 :: beBytes 1 len
   else if len < 2 ^ 16 then 0xc8 :: beBytes 2 len
   else 0xc9 :: beBytes 4 len) ++ tb :: d

/-! ### The `Value` model (msgpack-value) and its `Serialize` impl -/

/-- The recursive `Value` enum.  Floats are represented by their raw bit
patterns; `Map` is an ordered list of pairs (duplicates allowed). -/
inductive RValue where
  | nil
  | bool (b : Bool)
  | int (i : RInt)
  | f32 (bits : Nat)
  | f64 (bits : Nat)
  | str (data : List Nat)
  | bin (data : List Nat)
  | array (items : List RValue)
  | map (entries : List (RValue × RValue))
  | ext (tag : Int) (data : List Nat)
  deriving Repr

mutual
/-- Well-formedness of a `Value` as a Rust value: `Int` satisfies its
representation invariant, float bits fit the type width, byte/collection
lengths fit in a `u32` (the wire length-prefix width) and the ext type tag
fits in an `i8`. -/
def RValue.wf : RValue → Bool
  | .nil => true
  | .bool _ => true
  | .int i => decide i.valid
  | .f32 bits => decide (bits < 2 ^ 32)
  | .f64 bits => decide (bits < 2 ^ 64)
  | .str d => decide (d.length < 2 ^ 32)
  | .bin d => decide (d.length < 2 ^ 32)
  | .array vs => decide (vs.length < 2 ^ 32) && wfList vs
  | .map es => decide (es.length < 2 ^ 32) && wfPairs es
  | .ext t d => decide (-128 ≤ t) && decide (t < 128) && decide (d.length < 2 ^ 32)

def wfList : List RValue → Bool
  | [] => true
  | v :: vs => v.wf && wfList vs

def wfPairs : List (RValue × RValue) → Bool
  | [] => true
  | (k, v) :: es => k.wf && v.wf && wfPairs es
end

mutual
/-- `impl Serialize for Value` (src/lib.rs): walk the tree and emit the
token sequence it denotes; `len() as u32` is the `% 2 ^ 32`. -/
def serializeValue : RValue → List Nat
  | .nil => writeNil
  | .bool b => writeBool b
  | .int i => serialize_int i
  | .f32 bits => writeF32 bits
  | .f64 bits => writeF64 bits
  | .str d => writeStr d
  | .bin d => writeBin d
  | .array vs => writeArrayLen (vs.length % 2 ^ 32) ++ serializeList vs
  | .map es => writeMapLen (es.length % 2 ^ 32) ++ serializePairs es
  | .ext t d => writeExt t d

def serializeList : List RValue → List Nat
  | [] => []
  | v :: vs => serializeValue v ++ serializeList vs

def serializePairs : List (RValue × RValue) → List Nat
  | [] => []
  | (k, v) :: es => serializeValue k ++ serializeValue v ++ serializePairs es
end

/-! ### The `Value` deserializer (`impl Deserialize for Value`)

The Rust implementation recurses on the tree being decoded; the embedding
makes the recursion depth explicit as fuel (`none` = fuel exhausted, which
the termination theorem shows unreachable once the fuel exceeds the input
length). -/

mutual
def dValueF : Nat → List Nat → Option (Except RErr (RValue × List Nat))
  | 0, _ => none
  | f + 1, r =>
    match readToken r with
    | .error e => some (.error e)
    | .ok (t, r') =>
      match t with
      | .nil => some (.ok (.nil, r'))
      | .bool b => some (.ok (.bool b, r'))
      | .int i => some (.ok (.int i, r'))
      | .f32 bits => some (.ok (.f32 bits, r'))
      | .f64 bits => some (.ok (.f64 bits, r'))
      | .str d => some (.ok (.str d, r'))
      | .bin d => some (.ok (.bin d, r'))
      | .ext tag d => some (.ok (.ext tag d, r'))
      | .array len =>
        match dListF f len r' with
        | none => none
        | some (.error e) => some (.error e)
        | some (.ok (vs, r'')) => some (.ok (.array vs, r''))
      | .map len =>
        match dPairsF f len r' with
        | none => none
        | some (.error e) => some (.error e)
        | some (.ok (es, r'')) => some (.ok (.map es, r''))
termination_by f r => (f, 0)

def dListF : Nat → Nat → List Nat → Option (Except RErr (List RValue × List Nat))
  | _, 0, r => some (.ok ([], r))
  | f, len + 1, r =>
    match dValueF f r with
    | none => none
    | some (.error e) => some (.error e)
    | some (.ok (v, r')) =>
      match dListF f len r' with
      | none => none
      | some (.error e) => some (.error e)
      | some (.ok (vs, r'')) => some (.ok (v :: vs, r''))
termination_by f len r => (f, len + 1)

def dPairsF : Nat → Nat → List Nat →
    Option (Except RErr (List (RValue × RValue) × List Nat))
  | _, 0, r => some (.ok ([], r))
  | f, len + 1, r =>
    match dValueF f r with
    | none => none
    | some (.error e) => some (.error e)
    | some (.ok (k, r')) =>
      match dValueF f r' with
      | none => none
      | some (.error e) => some (.error e)
      | some (.ok (v, r'')) =>
        match dPairsF f len r'' with
        | none => none
        | some (.error e) => some (.error e)
        | some (.ok (es, r''')) => some (.ok ((k, v) :: es, r'''))
termination_by f len r => (f, len + 1)
end

/-- `deserialize::<Value>` on a byte slice: run with enough fuel for any
input of this length (justified by `dValueF_total`). -/
def dValue (r : List Nat) : Except RErr (RValue × List Nat) :=
  match dValueF (r.length + 1) r with
  | some res => res
  | none => .error .invalidInput

/-! ### Termination of `Value` decoding: the fuel never runs out once it
exceeds the input length -/

/-- Progress invariant for `dValueF`: with fuel above the input length the
decoder yields a result, and a success consumes at least one byte. -/
def DP (f : Nat) : Prop :=
  ∀ r : List Nat, r.length < f →
    ∃ res, dValueF f r = some res ∧
      ∀ v r', res = .ok (v, r') → r'.length < r.length

/-- Progress invariant for the array-element loop. -/
def DQ (f : Nat) : Prop :=
  ∀ (len : Nat) (r : List Nat), r.length < f →
    ∃ res, dListF f len r = some res ∧
      ∀ vs r', res = .ok (vs, r') → r'.length ≤ r.length

/-- Progress invariant for the map-entry loop. -/
def DR (f : Nat) : Prop :=
  ∀ (len : Nat) (r : List Nat), r.length < f →
    ∃ res, dPairsF f len r = some res ∧
      ∀ es r', res = .ok (es, r') → r'.length ≤ r.length

/-- Round-trip invariant for a single value at fuel `f`. -/
def RTP (f : Nat) : Prop :=
  ∀ (v : RValue) (rest : List Nat), RValue.wf v →
    (serializeValue v ++ rest).length < f →
    dValueF f (serializeValue v ++ rest) = some (.ok (v, rest))

/-- Round-trip invariant for array elements at fuel `f`. -/
def RTQ (f : Nat) : Prop :=
  ∀ (vs : List RValue) (rest : List Nat), wfList vs →
    (serializeList vs ++ rest).length < f →
    dListF f vs.length (serializeList vs ++ rest) = some (.ok (vs, rest))

/-- Round-trip invariant for map entries at fuel `f`. -/
def RTR (f : Nat) : Prop :=
  ∀ (es : List (RValue × RValue)) (rest : List Nat), wfPairs es →
    (serializePairs es ++ rest).length < f →
    dPairsF f es.length (serializePairs es ++ rest) = some (.ok (es, rest))

/-! ### `Deserializer::deserialize_any`: the discard decoder -/

/-- The pending-count loop of `deserialize_any`, fuelled by recursion
depth: from `count + 1` pending values, read one token; a scalar leaves
`count`, an `Array(len)`/`Map(len)` header adds `len`/`len * 2`. In the
source `count` is an inferred `u32` (it absorbs the `u32` token lengths),
so `count += len` and `count += len * 2` are u32 arithmetic: each
operation is taken `% 2 ^ 32` (two's-complement wrap, the release-build
overflow semantics; a debug build aborts at the same point instead, so in
neither mode does the remainder of the value get consumed). -/
def dAnyF : Nat → Nat → List Nat → Option (Except RErr (List Nat))
  | _, 0, r => some (.ok r)
  | 0, _ + 1, _ => none
  | f + 1, count + 1, r =>
    match readToken r with
    | .error e => some (.error e)
    | .ok (t, r') =>
      match t with
      | .array len => dAnyF f ((count + len) % 2 ^ 32) r'
      | .map len => dAnyF f ((count + len * 2 % 2 ^ 32) % 2 ^ 32) r'
      | _ => dAnyF f count r'

/-- `Deserializer::deserialize_any` on a byte slice (fuel justified by
`dAnyF_total`). -/
def dAny (r : List Nat) : Except RErr (List Nat) :=
  match dAnyF (r.length + 1) 1 r with
  | some res => res
  | none => .error .invalidInput

/-- A well-formed `Value` whose discard overflows the u32 pending count: a
Map of `2 ^ 31` `(Nil, Nil)` entries. Reading its header computes
`len * 2 = 2 ^ 32`, which wraps to `0` as a u32. -/
def bigMap : RValue := .map (List.replicate (2 ^ 31) (.nil, .nil))

/-! ### Rust structural equality on `Value` (derived `PartialEq`), with
IEEE 754 float semantics on the `F32`/`F64` payloads -/

/-- An f32 bit pattern is a NaN iff the exponent field is all ones and the
mantissa is non-zero. -/
def isNaN32 (bits : Nat) : Bool :=
  decide (bits / 2 ^ 23 % 2 ^ 8 = 0xff) && decide (bits % 2 ^ 23 ≠ 0)

/-- An f64 bit pattern is a NaN iff the exponent field is all ones and the
mantissa is non-zero. -/
def isNaN64 (bits : Nat) : Bool :=
  decide (bits / 2 ^ 52 % 2 ^ 11 = 0x7ff) && decide (bits % 2 ^ 52 ≠ 0)

/-- Rust `==` on `f32` values given by bit patterns (IEEE 754 equality):
NaN is unequal to everything, `+0.0 == -0.0`, and otherwise distinct bit
patterns denote distinct values. -/
def f32Eq (a b : Nat) : Bool :=
  if isNaN32 a || isNaN32 b then false
  else if a % 2 ^ 31 = 0 && b % 2 ^ 31 = 0 then true
  else a == b

/-- Rust `==` on `f64` values given by bit patterns. -/
def f64Eq (a b : Nat) : Bool :=
  if isNaN64 a || isNaN64 b then false
  else if a % 2 ^ 63 = 0 && b % 2 ^ 63 = 0 then true
  else a == b

mutual
/-- The derived `PartialEq` on `Value`: structural, except that `F32`/`F64`
payloads compare by Rust float equality. -/
def valueEqRust : RValue → RValue → Bool
  | .nil, .nil => true
  | .bool a, .bool b => a == b
  | .int a, .int b => a == b
  | .f32 a, .f32 b => f32Eq a b
  | .f64 a, .f64 b => f64Eq a b
  | .str a, .str b => a == b
  | .bin a, .bin b => a == b
  | .array a, .array b => listEqRust a b
  | .map a, .map b => pairsEqRust a b
  | .ext t1 d1, .ext t2 d2 => t1 == t2 && d1 == d2
  | _, _ => false

def listEqRust : List RValue → List RValue → Bool
  | [], [] => true
  | a :: la, b :: lb => valueEqRust a b && listEqRust la lb
  | _, _ => false

def pairsEqRust : List (RValue × RValue) → List (RValue × RValue) → Bool
  | [], [] => true
  | (k1, v1) :: la, (k2, v2) :: lb =>
    valueEqRust k1 k2 && valueEqRust v1 v2 && pairsEqRust la lb
  | _, _ => false
end

/-! ### Primitive bindings: u32, String, and `try_deserialize` -/

/-- `impl Serialize for u32`: `serialize_int(Int::from(v))`. -/
def serializeU32 (n : Nat) : List Nat := serialize_int (intFromU32 n)

/-- `impl Deserialize for u32`: an `Int` token narrowed by `TryFrom`,
failing with `ValidationError` when out of range or not an `Int`. -/
def deserializeU32 (r : List Nat) : Except RErr (Nat × List Nat) :=
  match readToken r with
  | .error e => .error e
  | .ok (.int v, r') =>
    match tryIntoU32 v with
    | some n => .ok (n, r')
    | none => .error .validation
  | .ok (_, _) => .error .validation

/-- UTF-8 continuation byte. -/
def utf8Cont (b : Nat) : Bool := decide (0x80 ≤ b) && decide (b ≤ 0xbf)

/-- Modelled from the spec: the UTF-8 validity check performed by
`String::from_utf8` (std), which is not part of this repository.  Standard
RFC 3629 validation: no overlong forms, no surrogates, max U+10FFFF. -/
def utf8Valid : List Nat → Bool
  | [] => true
  | b :: r =>
    if b ≤ 0x7f then utf8Valid r
    else if 0xc2 ≤ b ∧ b ≤ 0xdf then
      match r with
      | c1 :: r' => utf8Cont c1 && utf8Valid r'
      | _ => false
    else if b = 0xe0 then
      match r with
      | c1 :: c2 :: r' =>
        decide (0xa0 ≤ c1) && decide (c1 ≤ 0xbf) && utf8Cont c2 && utf8Valid r'
      | _ => false
    else if (0xe1 ≤ b ∧ b ≤ 0xec) ∨ b = 0xee ∨ b = 0xef then
      match r with
      | c1 :: c2 :: r' => utf8Cont c1 && utf8Cont c2 && utf8Valid r'
      | _ => false
    else if b = 0xed then
      match r with
      | c1 :: c2 :: r' =>
        decide (0x80 ≤ c1) && decide (c1 ≤ 0x9f) && utf8Cont c2 && utf8Valid r'
      | _ => false
    else if b = 0xf0 then
      match r with
      | c1 :: c2 :: c3 :: r' =>
        decide (0x90 ≤ c1) && decide (c1 ≤ 0xbf) && utf8Cont c2 && utf8Cont c3
          && utf8Valid r'
      | _ => false
    else if 0xf1 ≤ b ∧ b ≤ 0xf3 then
      match r with
      | c1 :: c2 :: c3 :: r' =>
        utf8Cont c1 && utf8Cont c2 && utf8Cont c3 && utf8Valid r'
      | _ => false
    else if b = 0xf4 then
      match r with
      | c1 :: c2 :: c3 :: r' =>
        decide (0x80 ≤ c1) && decide (c1 ≤ 0x8f) && utf8Cont c2 && utf8Cont c3
          && utf8Valid r'
      | _ => false
    else false

/-- `impl Deserialize for String`: a `Str` token whose bytes must be valid
UTF-8 (`ValidationError` otherwise); the String is carried as its bytes. -/
def deserializeString (r : List Nat) : Except RErr (List Nat × List Nat) :=
  match readToken r with
  | .error e => .error e
  | .ok (.str d, r') => if utf8Valid d then .ok (d, r') else .error .validation
  | .ok (_, _) => .error .validation

/-- `Deserializer::try_deserialize::<D>`: run the decode on a copy of the
cursor; on success commit the copy, on `ValidationError` return `None`
leaving the original cursor untouched, on `InvalidInputError` pass the
error on. -/
def tryDeserialize {α : Type} (d : List Nat → Except RErr (α × List Nat))
    (r : List Nat) : Except RErr (Option α × List Nat) :=
  match d r with
  | .ok (v, r') => .ok (some v, r')
  | .error .validation => .ok (none, r)
  | .error .invalidInput => .error .invalidInput

/-! ### C5: the untagged enum `enum Animal { Cat(String), Dog(u32) }` -/

/-- `#[untagged] enum Animal { Cat(String), Dog(u32) }`, Strings carried
as their UTF-8 bytes. -/
inductive Animal where
  | cat (s : List Nat)
  | dog (n : Nat)
  deriving DecidableEq, Repr

/-- Deserialize generated by `derive_untagged_enum` for `Animal`:
`try_deserialize` each variant's inner type in declaration order; the
first success wins; otherwise `ValidationError`. -/
def animalDeserialize (r : List Nat) : Except RErr (Animal × List Nat) :=
  match tryDeserialize deserializeString r with
  | .error e => .error e
  | .ok (some s, r') => .ok (.cat s, r')
  | .ok (none, _) =>
    match tryDeserialize deserializeU32 r with
    | .error e => .error e
    | .ok (some n, r') => .ok (.dog n, r')
    | .ok (none, _) => .error .validation

/-! ### C3: the tagged enum `enum E { #[tag=1] Cat(u32), #[tag=2] Dog(), #[tag=3] Bird }` -/

/-- A tagged enum with a newtype variant, an empty-tuple variant and a
unit variant. -/
inductive EnumE where
  | cat (n : Nat)
  | dog
  | bird
  deriving DecidableEq, Repr

/-- The per-tag dispatch generated by `derive_enum`: the newtype clause
requires `__is_array`, the empty-tuple clause requires `!__is_array`, the
unit clause has no arity check, unknown tags fail. -/
def eDispatch (tag : Nat) (isArray : Bool) (r : List Nat) :
    Except RErr (EnumE × List Nat) :=
  if tag = 1 then
    if !isArray then .error .validation
    else
      match deserializeU32 r with
      | .error e => .error e
      | .ok (n, r') => .ok (.cat n, r')
  else if tag = 2 then
    if isArray then .error .validation
    else .ok (.dog, r)
  else if tag = 3 then .ok (.bird, r)
  else .error .validation

/-- Deserialize generated by `derive_enum` for `EnumE`: a bare `Int`
gives `(tag, is_array = false)`; an `Array` must have length 2 and its
first element gives `(tag, is_array = true)`; anything else fails. -/
def eDeserialize (r : List Nat) : Except RErr (EnumE × List Nat) :=
  match readToken r with
  | .error e => .error e
  | .ok (.int v, r1) =>
    match tryIntoU32 v with
    | none => .error .validation
    | some tag => eDispatch tag false r1
  | .ok (.array len, r1) =>
    if len ≠ 2 then .error .validation
    else
      match deserializeU32 r1 with
      | .error e => .error e
      | .ok (tag, r2) => eDispatch tag true r2
  | .ok (_, _) => .error .validation

/-! ### `deserialize_any` consumes exactly one serialized value -/

/-- The key/value flattening of map entries, as the pending-count loop
sees them. -/
def pairsFlatten : List (RValue × RValue) → List RValue
  | [] => []
  | (k, v) :: es => k :: v :: pairsFlatten es

/-! ### The derive templates for tagged structs

`SStruct` embeds the code generated by `derive_struct` (deserialize.rs)
for `struct S { #[tag = 0] x: u32, #[tag = 1] y: String }`. -/

structure SStruct where
  x : Nat
  y : List Nat
  deriving DecidableEq, Repr

/-- The `for _ in 0..__len` loop of the generated deserializer: read a u32
tag; a known tag already filled returns `InvalidInputError`, otherwise the
field is decoded; unknown tags are discarded with `deserialize_any`.
After the loop each required field is unwrapped with
`ok_or(ValidationError)`. -/
def sDeserializeLoop : Nat → Option Nat → Option (List Nat) → List Nat →
    Except RErr (SStruct × List Nat)
  | 0, x, y, r =>
    match x with
    | none => .error .validation
    | some xv =>
      match y with
      | none => .error .validation
      | some yv => .ok (⟨xv, yv⟩, r)
  | n + 1, x, y, r =>
    match deserializeU32 r with
    | .error e => .error e
    | .ok (tag, r1) =>
      if tag = 0 then
        if x.isSome then .error .invalidInput
        else
          match deserializeU32 r1 with
          | .error e => .error e
          | .ok (xv, r2) => sDeserializeLoop n (some xv) y r2
      else if tag = 1 then
        if y.isSome then .error .invalidInput
        else
          match deserializeString r1 with
          | .error e => .error e
          | .ok (yv, r2) => sDeserializeLoop n x (some yv) r2
      else
        match dAny r1 with
        | .error e => .error e
        | .ok r2 => sDeserializeLoop n x y r2

/-- Deserialize generated by `derive_struct` for `SStruct`: a `Map` token
else `ValidationError`, then the tag loop. -/
def sDeserialize (r : List Nat) : Except RErr (SStruct × List Nat) :=
  match readToken r with
  | .error e => .error e
  | .ok (.map len, r1) => sDeserializeLoop len none none r1
  | .ok (_, _) => .error .validation

/-! ### C7: the optional-field struct
`struct Human { #[tag = 0] age: u32, #[optional] #[tag = 1] name: Option<String> }` -/

structure HumanS where
  age : Nat
  name : Option (List Nat)
  deriving DecidableEq, Repr

/-- `count_fields` generated by derive_struct (serialize.rs):
`__max_len` starts at the number of fields and each optional `None` field
subtracts one. -/
def humanCountFields (h : HumanS) : Nat :=
  2 - (if h.name.isNone then 1 else 0)

/-- `serialize_fields` generated by derive_struct: ordinary fields always
emit `(tag, value)`; an optional field emits its pair only when `Some`. -/
def humanSerializeFields (h : HumanS) : List Nat :=
  serializeU32 0 ++ serializeU32 h.age ++
    (match h.name with
     | some v => serializeU32 1 ++ writeStr v
     | none => [])

/-- `Serialize::serialize` generated for `HumanS`:
`serialize_map(count_fields())` then the fields. -/
def humanSerialize (h : HumanS) : List Nat :=
  writeMapLen (humanCountFields h) ++ humanSerializeFields h

/-- The generated deserialize loop for `HumanS`: like `sDeserializeLoop`,
but the optional field is not required after the loop. -/
def humanDeserializeLoop : Nat → Option Nat → Option (List Nat) → List Nat →
    Except RErr (HumanS × List Nat)
  | 0, x, y, r =>
    match x with
    | none => .error .validation
    | some xv => .ok (⟨xv, y⟩, r)
  | n + 1, x, y, r =>
    match deserializeU32 r with
    | .error e => .error e
    | .ok (tag, r1) =>
      if tag = 0 then
        if x.isSome then .error .invalidInput
        else
          match deserializeU32 r1 with
          | .error e => .error e
          | .ok (xv, r2) => humanDeserializeLoop n (some xv) y r2
      else if tag = 1 then
        if y.isSome then .error .invalidInput
        else
          match deserializeString r1 with
          | .error e => .error e
          | .ok (yv, r2) => humanDeserializeLoop n x (some yv) r2
      else
        match dAny r1 with
        | .error e => .error e
        | .ok r2 => humanDeserializeLoop n x y r2

/-- Deserialize generated by derive_struct for `HumanS`. -/
def humanDeserialize (r : List Nat) : Except RErr (HumanS × List Nat) :=
  match readToken r with
  | .error e => .error e
  | .ok (.map len, r1) => humanDeserializeLoop len none none r1
  | .ok (_, _) => .error .validation

/-! ### Theorems -/

theorem markerOf_fixPos (b : Nat) (h : b ≤ 0x7f) : markerOf b = .fixPos b := by
  unfold markerOf
  rw [if_pos h]

theorem markerOf_fixMap (b : Nat) (h1 : 0x80 ≤ b) (h2 : b ≤ 0x8f) :
    markerOf b = .fixMap (b - 0x80) := by
  unfold markerOf
  rw [if_neg (by omega), if_pos (by omega)]

theorem markerOf_fixArray (b : Nat) (h1 : 0x90 ≤ b) (h2 : b ≤ 0x9f) :
    markerOf b = .fixArray (b - 0x90) := by
  unfold markerOf
  rw [if_neg (by omega), if_neg (by omega), if_pos (by omega)]

theorem markerOf_fixStr (b : Nat) (h1 : 0xa0 ≤ b) (h2 : b ≤ 0xbf) :
    markerOf b = .fixStr (b - 0xa0) := by
  unfold markerOf
  rw [if_neg (by omega), if_neg (by omega), if_neg (by omega), if_pos (by omega)]

theorem markerOf_fixNeg (b : Nat) (h1 : 0xe0 ≤ b) (h2 : b ≤ 0xff) :
    markerOf b = .fixNeg ((b : Int) - 256) := by
  unfold markerOf
  iterate 36 rw [if_neg (by omega)]
  rw [if_pos (by omega)]

theorem markerOf_overflow (b : Nat) (h : 0x100 ≤ b) : markerOf b = .overflow := by
  unfold markerOf
  iterate 36 rw [if_neg (by omega)]
  rw [if_neg (by omega)]

/-! ### Inversion lemmas for the byte-level primitives -/

theorem beBytes_length (w n : Nat) : (beBytes w n).length = w := by
  induction w generalizing n with
  | zero => rfl
  | succ w ih => simp [beBytes, ih]

theorem beRead_beBytes (w n : Nat) (rest : List Nat) (h : n < 256 ^ w) :
    beRead w (beBytes w n ++ rest) = some (n, rest) := by
  induction w generalizing n with
  | zero =>
    interval_cases n
    rfl
  | succ w ih =>
    have hmod : n % 256 ^ w < 256 ^ w := Nat.mod_lt _ (Nat.pos_pow_of_pos _ (by norm_num))
    have hdiv : n / 256 ^ w < 256 := Nat.div_lt_of_lt_mul (by rw [pow_succ] at h; exact h)
    simp only [beBytes, List.cons_append, beRead, List.append_eq, ih (n % 256 ^ w) hmod]
    have h2 : n / 256 ^ w % 256 = n / 256 ^ w := Nat.mod_eq_of_lt hdiv
    rw [h2]
    rw [Nat.div_add_mod']

theorem beRead_length {w : Nat} {r r' : List Nat} {n : Nat}
    (h : beRead w r = some (n, r')) : r'.length + w = r.length := by
  induction w generalizing r n r' with
  | zero =>
    simp [beRead] at h
    simp [h.2]
  | succ w ih =>
    match r with
    | [] => simp [beRead] at h
    | b :: r =>
      simp only [beRead] at h
      match hb : beRead w r with
      | none => rw [hb] at h; simp at h
      | some (m, r'') =>
        rw [hb] at h
        simp only [Option.some.injEq, Prod.mk.injEq] at h
        have h2 := ih hb
        have h3 : r' = r'' := h.2.symm
        subst h3
        simp only [List.length_cons]
        omega

theorem takeBytes_append (d rest : List Nat) :
    takeBytes d.length (d ++ rest) = some (d, rest) := by
  unfold takeBytes
  rw [if_pos (by simp), List.take_left, List.drop_left]

theorem takeBytes_length {len : Nat} {r d r' : List Nat}
    (h : takeBytes len r = some (d, r')) :
    d.length = len ∧ r'.length + len = r.length := by
  unfold takeBytes at h
  by_cases hle : len ≤ r.length
  · rw [if_pos hle] at h
    simp only [Option.some.injEq, Prod.mk.injEq] at h
    constructor
    · rw [← h.1, List.length_take]; omega
    · rw [← h.2, List.length_drop]; omega
  · rw [if_neg hle] at h; simp at h

/-! ### Marker dispatch lemmas (one per literal marker byte) -/

@[simp] theorem readToken_mk_c0 (r : List Nat) : readToken (0xc0 :: r) = .ok (.nil, r) := rfl

@[simp] theorem readToken_mk_c2 (r : List Nat) :
    readToken (0xc2 :: r) = .ok (.bool false, r) := rfl

@[simp] theorem readToken_mk_c3 (r : List Nat) :
    readToken (0xc3 :: r) = .ok (.bool true, r) := rfl

@[simp] theorem readToken_mk_c4 (r : List Nat) :
    readToken (0xc4 :: r) = readLenThen 1 readBinPayload r := rfl

@[simp] theorem readToken_mk_c5 (r : List Nat) :
    readToken (0xc5 :: r) = readLenThen 2 readBinPayload r := rfl

@[simp] theorem readToken_mk_c6 (r : List Nat) :
    readToken (0xc6 :: r) = readLenThen 4 readBinPayload r := rfl

@[simp] theorem readToken_mk_c7 (r : List Nat) :
    readToken (0xc7 :: r) = readLenThen 1 readExtPayload r := rfl

@[simp] theorem readToken_mk_c8 (r : List Nat) :
    readToken (0xc8 :: r) = readLenThen 2 readExtPayload r := rfl

@[simp] theorem readToken_mk_c9 (r : List Nat) :
    readToken (0xc9 :: r) = readLenThen 4 readExtPayload r := rfl

@[simp] theorem readToken_mk_ca (r : List Nat) :
    readToken (0xca :: r) =
      (match beRead 4 r with
       | none => .error .invalidInput
       | some (bits, r') => .ok (.f32 bits, r')) := rfl

@[simp] theorem readToken_mk_cb (r : List Nat) :
    readToken (0xcb :: r) =
      (match beRead 8 r with
       | none => .error .invalidInput
       | some (bits, r') => .ok (.f64 bits, r')) := rfl

@[simp] theorem readToken_mk_cc (r : List Nat) :
    readToken (0xcc :: r) = readUintPayload 1 r := rfl

@[simp] theorem readToken_mk_cd (r : List Nat) :
    readToken (0xcd :: r) = readUintPayload 2 r := rfl

@[simp] theorem readToken_mk_ce (r : List Nat) :
    readToken (0xce :: r) = readUintPayload 4 r := rfl

@[simp] theorem readToken_mk_cf (r : List Nat) :
    readToken (0xcf :: r) = readUintPayload 8 r := rfl

@[simp] theorem readToken_mk_d0 (r : List Nat) :
    readToken (0xd0 :: r) = readIntPayload 1 r := rfl

@[simp] theorem readToken_mk_d1 (r : List Nat) :
    readToken (0xd1 :: r) = readIntPayload 2 r := rfl

@[simp] theorem readToken_mk_d2 (r : List Nat) :
    readToken (0xd2 :: r) = readIntPayload 4 r := rfl

@[simp] theorem readToken_mk_d3 (r : List Nat) :
    readToken (0xd3 :: r) = readIntPayload 8 r := rfl

@[simp] theorem readToken_mk_d4 (r : List Nat) :
    readToken (0xd4 :: r) = readExtPayload 1 r := rfl

@[simp] theorem readToken_mk_d5 (r : List Nat) :
    readToken (0xd5 :: r) = readExtPayload 2 r := rfl

@[simp] theorem readToken_mk_d6 (r : List Nat) :
    readToken (0xd6 :: r) = readExtPayload 4 r := rfl

@[simp] theorem readToken_mk_d7 (r : List Nat) :
    readToken (0xd7 :: r) = readExtPayload 8 r := rfl

@[simp] theorem readToken_mk_d8 (r : List Nat) :
    readToken (0xd8 :: r) = readExtPayload 16 r := rfl

@[simp] theorem readToken_mk_d9 (r : List Nat) :
    readToken (0xd9 :: r) = readLenThen 1 readStrPayload r := rfl

@[simp] theorem readToken_mk_da (r : List Nat) :
    readToken (0xda :: r) = readLenThen 2 readStrPayload r := rfl

@[simp] theorem readToken_mk_db (r : List Nat) :
    readToken (0xdb :: r) = readLenThen 4 readStrPayload r := rfl

@[simp] theorem readToken_mk_dc (r : List Nat) :
    readToken (0xdc :: r) = readLenThen 2 (fun len r' => .ok (.array len, r')) r := rfl

@[simp] theorem readToken_mk_dd (r : List Nat) :
    readToken (0xdd :: r) = readLenThen 4 (fun len r' => .ok (.array len, r')) r := rfl

@[simp] theorem readToken_mk_de (r : List Nat) :
    readToken (0xde :: r) = readLenThen 2 (fun len r' => .ok (.map len, r')) r := rfl

@[simp] theorem readToken_mk_df (r : List Nat) :
    readToken (0xdf :: r) = readLenThen 4 (fun len r' => .ok (.map len, r')) r := rfl

theorem readToken_posfix (n : Nat) (h : n < 128) (rest : List Nat) :
    readToken (n :: rest) = .ok (.int (intFromU64 n), rest) := by
  simp only [readToken, markerOf_fixPos n (by omega)]

theorem readToken_negfix (b : Nat) (h1 : 0xe0 ≤ b) (h2 : b ≤ 0xff) (rest : List Nat) :
    readToken (b :: rest) = .ok (.int (intFromI64 ((b : Int) - 256)), rest) := by
  simp only [readToken, markerOf_fixNeg b h1 h2]

theorem readToken_fixmap (n : Nat) (h : n < 16) (rest : List Nat) :
    readToken ((0x80 + n) :: rest) = .ok (.map n, rest) := by
  simp only [readToken, markerOf_fixMap (0x80 + n) (by omega) (by omega)]
  have h2 : 0x80 + n - 0x80 = n := by omega
  rw [h2]

theorem readToken_fixarray (n : Nat) (h : n < 16) (rest : List Nat) :
    readToken ((0x90 + n) :: rest) = .ok (.array n, rest) := by
  simp only [readToken, markerOf_fixArray (0x90 + n) (by omega) (by omega)]
  have h2 : 0x90 + n - 0x90 = n := by omega
  rw [h2]

theorem readToken_fixstr (n : Nat) (h : n < 32) (rest : List Nat) :
    readToken ((0xa0 + n) :: rest) = readStrPayload n rest := by
  simp only [readToken, markerOf_fixStr (0xa0 + n) (by omega) (by omega)]
  have h2 : 0xa0 + n - 0xa0 = n := by omega
  rw [h2]

/-! ### Integer encoding round-trip -/

theorem readToken_writeUint (n : Nat) (h : n < 2 ^ 64) (rest : List Nat) :
    readToken (writeUint n ++ rest) = .ok (.int (intFromU64 n), rest) := by
  unfold writeUint
  by_cases h1 : n < 128
  · rw [if_pos h1]
    exact readToken_posfix n h1 rest
  · rw [if_neg h1]
    by_cases h2 : n < 256
    · rw [if_pos h2]
      rw [List.cons_append, readToken_mk_cc]
      unfold readUintPayload
      have hx : beRead 1 (beBytes 1 n ++ rest) = some (n, rest) :=
        beRead_beBytes 1 n rest (by norm_num; omega)
      rw [hx]
    · rw [if_neg h2]
      by_cases h3 : n < 2 ^ 16
      · rw [if_pos h3]
        rw [List.cons_append, readToken_mk_cd]
        unfold readUintPayload
        have hx : beRead 2 (beBytes 2 n ++ rest) = some (n, rest) :=
          beRead_beBytes 2 n rest (by norm_num at h3 ⊢; omega)
        rw [hx]
      · rw [if_neg h3]
        by_cases h4 : n < 2 ^ 32
        · rw [if_pos h4]
          rw [List.cons_append, readToken_mk_ce]
          unfold readUintPayload
          have hx : beRead 4 (beBytes 4 n ++ rest) = some (n, rest) :=
            beRead_beBytes 4 n rest (by norm_num at h4 ⊢; omega)
          rw [hx]
        · rw [if_neg h4]
          rw [List.cons_append, readToken_mk_cf]
          unfold readUintPayload
          have hx : beRead 8 (beBytes 8 n ++ rest) = some (n, rest) :=
            beRead_beBytes 8 n rest (by norm_num at h ⊢; omega)
          rw [hx]

theorem readToken_writeSint (z : Int) (hlo : -(2 ^ 63) ≤ z) (hhi : z < 2 ^ 63)
    (rest : List Nat) :
    readToken (writeSint z ++ rest) = .ok (.int (intFromI64 z), rest) := by
  unfold writeSint
  by_cases h0 : 0 ≤ z
  · rw [if_pos h0]
    have hn : z.toNat < 2 ^ 64 := by norm_num at hhi ⊢; omega
    rw [readToken_writeUint z.toNat hn rest]
    unfold intFromI64
    rw [if_pos h0]
  · rw [if_neg h0]
    by_cases h1 : -32 ≤ z
    · rw [if_pos h1]
      rw [show ([(z + 256).toNat] ++ rest) = (z + 256).toNat :: rest from rfl,
        readToken_negfix _ (by omega) (by omega) rest]
      have harg : ((z + 256).toNat : Int) - 256 = z := by omega
      rw [harg]
    · rw [if_neg h1]
      by_cases h2 : -(2 ^ 7) ≤ z
      · rw [if_pos h2]
        rw [List.cons_append, readToken_mk_d0]
        unfold readIntPayload
        have hx := beRead_beBytes 1 (z + 2 ^ 8).toNat rest (by norm_num at h0 ⊢; omega)
        rw [hx]
        have harg : sext 1 ((z + 2 ^ 8).toNat) = z := by
          unfold sext
          rw [if_neg (by norm_num at h2 ⊢; omega)]
          norm_num at h2 ⊢
          omega
        simp only [harg]
      · rw [if_neg h2]
        by_cases h3 : -(2 ^ 15) ≤ z
        · rw [if_pos h3]
          rw [List.cons_append, readToken_mk_d1]
          unfold readIntPayload
          have hx := beRead_beBytes 2 (z + 2 ^ 16).toNat rest (by norm_num at h0 ⊢; omega)
          rw [hx]
          have harg : sext 2 ((z + 2 ^ 16).toNat) = z := by
            unfold sext
            rw [if_neg (by norm_num at h3 ⊢; omega)]
            norm_num at h3 ⊢
            omega
          simp only [harg]
        · rw [if_neg h3]
          by_cases h4 : -(2 ^ 31) ≤ z
          · rw [if_pos h4]
            rw [List.cons_append, readToken_mk_d2]
            unfold readIntPayload
            have hx := beRead_beBytes 4 (z + 2 ^ 32).toNat rest (by norm_num at h0 ⊢; omega)
            rw [hx]
            have harg : sext 4 ((z + 2 ^ 32).toNat) = z := by
              unfold sext
              rw [if_neg (by norm_num at h4 ⊢; omega)]
              norm_num at h4 ⊢
              omega
            simp only [harg]
          · rw [if_neg h4]
            rw [List.cons_append, readToken_mk_d3]
            unfold readIntPayload
            have hx := beRead_beBytes 8 (z + 2 ^ 64).toNat rest (by norm_num at h0 hlo ⊢; omega)
            rw [hx]
            have harg : sext 8 ((z + 2 ^ 64).toNat) = z := by
              unfold sext
              rw [if_neg (by norm_num at h4 hlo ⊢; omega)]
              norm_num at h4 hlo ⊢
              omega
            simp only [harg]

theorem readToken_serialize_int (i : RInt) (h : i.valid) (rest : List Nat) :
    readToken (serialize_int i ++ rest) = .ok (.int i, rest) := by
  obtain ⟨s, v⟩ := i
  obtain ⟨hv, hs⟩ := h
  dsimp only at hv hs
  cases s with
  | false =>
    by_cases hlt : v < 2 ^ 63
    · have ha : asI64 v = (v : Int) := by
        unfold asI64
        rw [if_pos hlt]
      have ht : tryIntoI64 ⟨false, v⟩ = some (v : Int) := by
        unfold tryIntoI64
        dsimp only
        rw [if_neg (by simp), ha, if_pos (by positivity)]
      unfold serialize_int
      rw [ht]
      have hrt := readToken_writeSint (v : Int) (by norm_num; omega) (by exact_mod_cast hlt) rest
      rw [hrt]
      have hi : intFromI64 (v : Int) = ⟨false, v⟩ := by
        unfold intFromI64 intFromU64
        rw [if_pos (by positivity)]
        simp
      rw [hi]
    · have ha : asI64 v = (v : Int) - 2 ^ 64 := by
        unfold asI64
        rw [if_neg hlt]
      have ht : tryIntoI64 ⟨false, v⟩ = none := by
        unfold tryIntoI64
        dsimp only
        rw [if_neg (by simp), ha, if_neg (by norm_num at hv ⊢; omega)]
      unfold serialize_int
      rw [ht]
      rw [readToken_writeUint v hv rest]
      rfl
  | true =>
    have hge : 2 ^ 63 ≤ v := hs rfl
    have ha : asI64 v = (v : Int) - 2 ^ 64 := by
      unfold asI64
      rw [if_neg (by norm_num at hge ⊢; omega)]
    have ht : tryIntoI64 ⟨true, v⟩ = some ((v : Int) - 2 ^ 64) := by
      unfold tryIntoI64
      dsimp only
      rw [if_pos rfl, ha]
    unfold serialize_int
    rw [ht]
    have hz1 : -(2 ^ 63) ≤ (v : Int) - 2 ^ 64 := by norm_num at hge ⊢; omega
    have hz2 : (v : Int) - 2 ^ 64 < 2 ^ 63 := by norm_num at hv ⊢; omega
    rw [readToken_writeSint _ hz1 hz2 rest]
    have hi : intFromI64 ((v : Int) - 2 ^ 64) = ⟨true, v⟩ := by
      unfold intFromI64
      rw [if_neg (by norm_num at hv ⊢; omega)]
      have h2 : ((v : Int) - 2 ^ 64 + 2 ^ 64).toNat = v := by norm_num
      rw [h2]
    rw [hi]

/-! ### Round-trips for the remaining token encodings -/

theorem readStrPayload_append (d rest : List Nat) :
    readStrPayload d.length (d ++ rest) = .ok (.str d, rest) := by
  unfold readStrPayload
  rw [takeBytes_append]

theorem readBinPayload_append (d rest : List Nat) :
    readBinPayload d.length (d ++ rest) = .ok (.bin d, rest) := by
  unfold readBinPayload
  rw [takeBytes_append]

theorem readExtPayload_append (len tb : Nat) (d rest : List Nat) (hlen : len = d.length) :
    readExtPayload len (tb :: (d ++ rest)) = .ok (.ext (sext 1 tb) d, rest) := by
  subst hlen
  simp only [readExtPayload]
  rw [takeBytes_append]

theorem sext1_emod (t : Int) (h1 : -128 ≤ t) (h2 : t < 128) :
    sext 1 ((t % 256).toNat) = t := by
  unfold sext
  norm_num
  by_cases hc : (t % 256).toNat < 128
  · rw [if_pos hc]
    omega
  · rw [if_neg hc]
    omega

theorem readToken_writeStr (d : List Nat) (h : d.length < 2 ^ 32) (rest : List Nat) :
    readToken (writeStr d ++ rest) = .ok (.str d, rest) := by
  have hmod : d.length % 2 ^ 32 = d.length := Nat.mod_eq_of_lt h
  simp only [writeStr, hmod]
  by_cases h1 : d.length < 32
  · rw [if_pos h1]
    rw [show ([0xa0 + d.length] ++ d ++ rest) = (0xa0 + d.length) :: (d ++ rest) by simp]
    rw [readToken_fixstr d.length h1 (d ++ rest), readStrPayload_append]
  · rw [if_neg h1]
    by_cases h2 : d.length < 256
    · rw [if_pos h2]
      rw [show ((0xd9 :: beBytes 1 d.length) ++ d ++ rest)
          = 0xd9 :: (beBytes 1 d.length ++ (d ++ rest)) by simp]
      rw [readToken_mk_d9]
      unfold readLenThen
      have hx := beRead_beBytes 1 d.length (d ++ rest) (by norm_num; omega)
      simp only [hx, readStrPayload_append]
    · rw [if_neg h2]
      by_cases h3 : d.length < 2 ^ 16
      · rw [if_pos h3]
        rw [show ((0xda :: beBytes 2 d.length) ++ d ++ rest)
            = 0xda :: (beBytes 2 d.length ++ (d ++ rest)) by simp]
        rw [readToken_mk_da]
        unfold readLenThen
        have hx := beRead_beBytes 2 d.length (d ++ rest) (by norm_num at h3 ⊢; omega)
        simp only [hx, readStrPayload_append]
      · rw [if_neg h3]
        rw [show ((0xdb :: beBytes 4 d.length) ++ d ++ rest)
            = 0xdb :: (beBytes 4 d.length ++ (d ++ rest)) by simp]
        rw [readToken_mk_db]
        unfold readLenThen
        have hx := beRead_beBytes 4 d.length (d ++ rest) (by norm_num at h ⊢; omega)
        simp only [hx, readStrPayload_append]

theorem readToken_writeBin (d : List Nat) (h : d.length < 2 ^ 32) (rest : List Nat) :
    readToken (writeBin d ++ rest) = .ok (.bin d, rest) := by
  have hmod : d.length % 2 ^ 32 = d.length := Nat.mod_eq_of_lt h
  simp only [writeBin, hmod]
  by_cases h2 : d.length < 256
  · rw [if_pos h2]
    rw [show ((0xc4 :: beBytes 1 d.length) ++ d ++ rest)
        = 0xc4 :: (beBytes 1 d.length ++ (d ++ rest)) by simp]
    rw [readToken_mk_c4]
    unfold readLenThen
    have hx := beRead_beBytes 1 d.length (d ++ rest) (by norm_num; omega)
    simp only [hx, readBinPayload_append]
  · rw [if_neg h2]
    by_cases h3 : d.length < 2 ^ 16
    · rw [if_pos h3]
      rw [show ((0xc5 :: beBytes 2 d.length) ++ d ++ rest)
          = 0xc5 :: (beBytes 2 d.length ++ (d ++ rest)) by simp]
      rw [readToken_mk_c5]
      unfold readLenThen
      have hx := beRead_beBytes 2 d.length (d ++ rest) (by norm_num at h3 ⊢; omega)
      simp only [hx, readBinPayload_append]
    · rw [if_neg h3]
      rw [show ((0xc6 :: beBytes 4 d.length) ++ d ++ rest)
          = 0xc6 :: (beBytes 4 d.length ++ (d ++ rest)) by simp]
      rw [readToken_mk_c6]
      unfold readLenThen
      have hx := beRead_beBytes 4 d.length (d ++ rest) (by norm_num at h ⊢; omega)
      simp only [hx, readBinPayload_append]

theorem readToken_writeArrayLen (len : Nat) (h : len < 2 ^ 32) (rest : List Nat) :
    readToken (writeArrayLen len ++ rest) = .ok (.array len, rest) := by
  unfold writeArrayLen
  by_cases h1 : len < 16
  · rw [if_pos h1]
    rw [show ([0x90 + len] ++ rest) = (0x90 + len) :: rest by simp]
    rw [readToken_fixarray len h1 rest]
  · rw [if_neg h1]
    by_cases h2 : len < 2 ^ 16
    · rw [if_pos h2]
      rw [List.cons_append, readToken_mk_dc]
      unfold readLenThen
      have hx := beRead_beBytes 2 len rest (by norm_num at h2 ⊢; omega)
      rw [hx]
    · rw [if_neg h2]
      rw [List.cons_append, readToken_mk_dd]
      unfold readLenThen
      have hx := beRead_beBytes 4 len rest (by norm_num at h ⊢; omega)
      rw [hx]

theorem readToken_writeMapLen (len : Nat) (h : len < 2 ^ 32) (rest : List Nat) :
    readToken (writeMapLen len ++ rest) = .ok (.map len, rest) := by
  unfold writeMapLen
  by_cases h1 : len < 16
  · rw [if_pos h1]
    rw [show ([0x80 + len] ++ rest) = (0x80 + len) :: rest by simp]
    rw [readToken_fixmap len h1 rest]
  · rw [if_neg h1]
    by_cases h2 : len < 2 ^ 16
    · rw [if_pos h2]
      rw [List.cons_append, readToken_mk_de]
      unfold readLenThen
      have hx := beRead_beBytes 2 len rest (by norm_num at h2 ⊢; omega)
      rw [hx]
    · rw [if_neg h2]
      rw [List.cons_append, readToken_mk_df]
      unfold readLenThen
      have hx := beRead_beBytes 4 len rest (by norm_num at h ⊢; omega)
      rw [hx]

theorem readToken_writeF32 (bits : Nat) (h : bits < 2 ^ 32) (rest : List Nat) :
    readToken (writeF32 bits ++ rest) = .ok (.f32 bits, rest) := by
  unfold writeF32
  rw [List.cons_append, readToken_mk_ca]
  have hx := beRead_beBytes 4 bits rest (by norm_num at h ⊢; omega)
  rw [hx]

theorem readToken_writeF64 (bits : Nat) (h : bits < 2 ^ 64) (rest : List Nat) :
    readToken (writeF64 bits ++ rest) = .ok (.f64 bits, rest) := by
  unfold writeF64
  rw [List.cons_append, readToken_mk_cb]
  have hx := beRead_beBytes 8 bits rest (by norm_num at h ⊢; omega)
  rw [hx]

theorem readToken_writeNil (rest : List Nat) :
    readToken (writeNil ++ rest) = .ok (.nil, rest) := rfl

theorem readToken_writeBool (b : Bool) (rest : List Nat) :
    readToken (writeBool b ++ rest) = .ok (.bool b, rest) := by
  cases b <;> rfl

theorem readToken_writeExt (tag : Int) (d : List Nat) (ht1 : -128 ≤ tag)
    (ht2 : tag < 128) (h : d.length < 2 ^ 32) (rest : List Nat) :
    readToken (writeExt tag d ++ rest) = .ok (.ext tag d, rest) := by
  have hmod : d.length % 2 ^ 32 = d.length := Nat.mod_eq_of_lt h
  simp only [writeExt, hmod]
  have hs := sext1_emod tag ht1 ht2
  by_cases e1 : d.length = 1
  · rw [if_pos e1]
    rw [show (([0xd4] : List Nat) ++ (tag % 256).toNat :: d ++ rest)
        = 0xd4 :: ((tag % 256).toNat :: (d ++ rest)) by simp]
    rw [readToken_mk_d4, readExtPayload_append 1 _ d rest e1.symm, hs]
  · rw [if_neg e1]
    by_cases e2 : d.length = 2
    · rw [if_pos e2]
      rw [show (([0xd5] : List Nat) ++ (tag % 256).toNat :: d ++ rest)
          = 0xd5 :: ((tag % 256).toNat :: (d ++ rest)) by simp]
      rw [readToken_mk_d5, readExtPayload_append 2 _ d rest e2.symm, hs]
    · rw [if_neg e2]
      by_cases e4 : d.length = 4
      · rw [if_pos e4]
        rw [show (([0xd6] : List Nat) ++ (tag % 256).toNat :: d ++ rest)
            = 0xd6 :: ((tag % 256).toNat :: (d ++ rest)) by simp]
        rw [readToken_mk_d6, readExtPayload_append 4 _ d rest e4.symm, hs]
      · rw [if_neg e4]
        by_cases e8 : d.length = 8
        · rw [if_pos e8]
          rw [show (([0xd7] : List Nat) ++ (tag % 256).toNat :: d ++ rest)
              = 0xd7 :: ((tag % 256).toNat :: (d ++ rest)) by simp]
          rw [readToken_mk_d7, readExtPayload_append 8 _ d rest e8.symm, hs]
        · rw [if_neg e8]
          by_cases e16 : d.length = 16
          · rw [if_pos e16]
            rw [show (([0xd8] : List Nat) ++ (tag % 256).toNat :: d ++ rest)
                = 0xd8 :: ((tag % 256).toNat :: (d ++ rest)) by simp]
            rw [readToken_mk_d8, readExtPayload_append 16 _ d rest e16.symm, hs]
          · rw [if_neg e16]
            by_cases h2 : d.length < 256
            · rw [if_pos h2]
              rw [show ((0xc7 :: beBytes 1 d.length) ++ (tag % 256).toNat :: d ++ rest)
                  = 0xc7 :: (beBytes 1 d.length ++ ((tag % 256).toNat :: (d ++ rest)))
                  by simp]
              rw [readToken_mk_c7]
              unfold readLenThen
              have hx := beRead_beBytes 1 d.length ((tag % 256).toNat :: (d ++ rest))
                (by norm_num; omega)
              simp only [hx]
              rw [readExtPayload_append _ _ d rest rfl, hs]
            · rw [if_neg h2]
              by_cases h3 : d.length < 2 ^ 16
              · rw [if_pos h3]
                rw [show ((0xc8 :: beBytes 2 d.length) ++ (tag % 256).toNat :: d ++ rest)
                    = 0xc8 :: (beBytes 2 d.length ++ ((tag % 256).toNat :: (d ++ rest)))
                    by simp]
                rw [readToken_mk_c8]
                unfold readLenThen
                have hx := beRead_beBytes 2 d.length ((tag % 256).toNat :: (d ++ rest))
                  (by norm_num at h3 ⊢; omega)
                simp only [hx]
                rw [readExtPayload_append _ _ d rest rfl, hs]
              · rw [if_neg h3]
                rw [show ((0xc9 :: beBytes 4 d.length) ++ (tag % 256).toNat :: d ++ rest)
                    = 0xc9 :: (beBytes 4 d.length ++ ((tag % 256).toNat :: (d ++ rest)))
                    by simp]
                rw [readToken_mk_c9]
                unfold readLenThen
                have hx := beRead_beBytes 4 d.length ((tag % 256).toNat :: (d ++ rest))
                  (by norm_num at h ⊢; omega)
                simp only [hx]
                rw [readExtPayload_append _ _ d rest rfl, hs]

/-! ### Every successful token read consumes at least one byte -/

theorem readStrPayload_length {len : Nat} {r : List Nat} {t : RToken} {r' : List Nat}
    (h : readStrPayload len r = .ok (t, r')) : r'.length ≤ r.length := by
  unfold readStrPayload at h
  cases htb : takeBytes len r with
  | none => rw [htb] at h; simp at h
  | some p =>
    obtain ⟨d, r''⟩ := p
    rw [htb] at h
    simp only [Except.ok.injEq, Prod.mk.injEq] at h
    obtain ⟨ht, hr⟩ := h
    subst hr
    have := (takeBytes_length htb).2
    omega

theorem readBinPayload_length {len : Nat} {r : List Nat} {t : RToken} {r' : List Nat}
    (h : readBinPayload len r = .ok (t, r')) : r'.length ≤ r.length := by
  unfold readBinPayload at h
  cases htb : takeBytes len r with
  | none => rw [htb] at h; simp at h
  | some p =>
    obtain ⟨d, r''⟩ := p
    rw [htb] at h
    simp only [Except.ok.injEq, Prod.mk.injEq] at h
    obtain ⟨ht, hr⟩ := h
    subst hr
    have := (takeBytes_length htb).2
    omega

theorem readExtPayload_length {len : Nat} {r : List Nat} {t : RToken} {r' : List Nat}
    (h : readExtPayload len r = .ok (t, r')) : r'.length ≤ r.length := by
  match r with
  | [] => simp [readExtPayload] at h
  | tb :: r0 =>
    simp only [readExtPayload] at h
    cases htb : takeBytes len r0 with
    | none => rw [htb] at h; simp at h
    | some p =>
      obtain ⟨d, r''⟩ := p
      rw [htb] at h
      simp only [Except.ok.injEq, Prod.mk.injEq] at h
      obtain ⟨ht, hr⟩ := h
      subst hr
      have := (takeBytes_length htb).2
      simp only [List.length_cons]
      omega

theorem readUintPayload_length {w : Nat} {r : List Nat} {t : RToken} {r' : List Nat}
    (h : readUintPayload w r = .ok (t, r')) : r'.length ≤ r.length := by
  unfold readUintPayload at h
  cases hbe : beRead w r with
  | none => rw [hbe] at h; simp at h
  | some p =>
    obtain ⟨n, r''⟩ := p
    rw [hbe] at h
    simp only [Except.ok.injEq, Prod.mk.injEq] at h
    obtain ⟨ht, hr⟩ := h
    subst hr
    have := beRead_length hbe
    omega

theorem readIntPayload_length {w : Nat} {r : List Nat} {t : RToken} {r' : List Nat}
    (h : readIntPayload w r = .ok (t, r')) : r'.length ≤ r.length := by
  unfold readIntPayload at h
  cases hbe : beRead w r with
  | none => rw [hbe] at h; simp at h
  | some p =>
    obtain ⟨n, r''⟩ := p
    rw [hbe] at h
    simp only [Except.ok.injEq, Prod.mk.injEq] at h
    obtain ⟨ht, hr⟩ := h
    subst hr
    have := beRead_length hbe
    omega

theorem readLenThen_length {w : Nat} {k : Nat → List Nat → Except RErr (RToken × List Nat)}
    {r : List Nat} {t : RToken} {r' : List Nat}
    (hk : ∀ len r1 t1 r1', k len r1 = .ok (t1, r1') → r1'.length ≤ r1.length)
    (h : readLenThen w k r = .ok (t, r')) : r'.length ≤ r.length := by
  unfold readLenThen at h
  cases hbe : beRead w r with
  | none => rw [hbe] at h; simp at h
  | some p =>
    obtain ⟨len, r1⟩ := p
    rw [hbe] at h
    have := beRead_length hbe
    have := hk len r1 t r' h
    omega

/-- A successful `deserialize_token` consumes at least the marker byte. -/
theorem readToken_consumes {r : List Nat} {t : RToken} {r' : List Nat}
    (h : readToken r = .ok (t, r')) : r'.length < r.length := by
  match r with
  | [] => simp [readToken] at h
  | b :: r0 =>
    have hgoal : r'.length ≤ r0.length → r'.length < (b :: r0).length := by
      simp only [List.length_cons]
      omega
    apply hgoal
    simp only [readToken] at h
    cases hm : markerOf b <;> simp only [hm] at h <;>
      first
      | (simp only [Except.ok.injEq, Prod.mk.injEq] at h
         obtain ⟨h1, h2⟩ := h
         subst h2
         exact le_refl _)
      | exact readStrPayload_length h
      | exact readBinPayload_length h
      | exact readExtPayload_length h
      | exact readUintPayload_length h
      | exact readIntPayload_length h
      | exact readLenThen_length (fun _ _ _ _ hh => readBinPayload_length hh) h
      | exact readLenThen_length (fun _ _ _ _ hh => readExtPayload_length hh) h
      | exact readLenThen_length (fun _ _ _ _ hh => readStrPayload_length hh) h
      | exact readLenThen_length
          (fun _ _ _ _ hh => by
            simp only [Except.ok.injEq, Prod.mk.injEq] at hh
            obtain ⟨hh1, hh2⟩ := hh
            subst hh2
            exact le_refl _) h
      | (cases hbe : beRead 4 r0 with
         | none => rw [hbe] at h; simp at h
         | some p =>
           obtain ⟨n, r''⟩ := p
           rw [hbe] at h
           simp only [Except.ok.injEq, Prod.mk.injEq] at h
           obtain ⟨h1, h2⟩ := h
           subst h2
           have := beRead_length hbe
           omega)
      | (cases hbe : beRead 8 r0 with
         | none => rw [hbe] at h; simp at h
         | some p =>
           obtain ⟨n, r''⟩ := p
           rw [hbe] at h
           simp only [Except.ok.injEq, Prod.mk.injEq] at h
           obtain ⟨h1, h2⟩ := h
           subst h2
           have := beRead_length hbe
           omega)
      | simp at h

theorem dValueF_total_aux : ∀ f, DP f ∧ DQ f ∧ DR f := by
  intro f
  induction f with
  | zero =>
    refine ⟨?_, ?_, ?_⟩
    · intro r hr; omega
    · intro len r hr; omega
    · intro len r hr; omega
  | succ f ih =>
    obtain ⟨ihP, ihQ, ihR⟩ := ih
    have hP : DP (f + 1) := by
      intro r hr
      cases hrt : readToken r with
      | error e =>
        exact ⟨.error e, by simp [dValueF, hrt], fun v r' hres => by cases hres⟩
      | ok p =>
        obtain ⟨t, r1⟩ := p
        have hlen := readToken_consumes hrt
        cases t with
        | nil =>
          exact ⟨.ok (.nil, r1), by simp [dValueF, hrt],
            fun v r' hres => by cases hres; omega⟩
        | bool b =>
          exact ⟨.ok (.bool b, r1), by simp [dValueF, hrt],
            fun v r' hres => by cases hres; omega⟩
        | int i =>
          exact ⟨.ok (.int i, r1), by simp [dValueF, hrt],
            fun v r' hres => by cases hres; omega⟩
        | f32 bits =>
          exact ⟨.ok (.f32 bits, r1), by simp [dValueF, hrt],
            fun v r' hres => by cases hres; omega⟩
        | f64 bits =>
          exact ⟨.ok (.f64 bits, r1), by simp [dValueF, hrt],
            fun v r' hres => by cases hres; omega⟩
        | str d =>
          exact ⟨.ok (.str d, r1), by simp [dValueF, hrt],
            fun v r' hres => by cases hres; omega⟩
        | bin d =>
          exact ⟨.ok (.bin d, r1), by simp [dValueF, hrt],
            fun v r' hres => by cases hres; omega⟩
        | ext tag d =>
          exact ⟨.ok (.ext tag d, r1), by simp [dValueF, hrt],
            fun v r' hres => by cases hres; omega⟩
        | array len =>
          obtain ⟨res1, hres1, hbound1⟩ := ihQ len r1 (by omega)
          cases res1 with
          | error e =>
            exact ⟨.error e, by simp [dValueF, hrt, hres1], fun v r' hres => by cases hres⟩
          | ok p1 =>
            obtain ⟨vs, r2⟩ := p1
            refine ⟨.ok (.array vs, r2), by simp [dValueF, hrt, hres1], ?_⟩
            intro v r' hres
            cases hres
            have := hbound1 vs r2 rfl
            omega
        | map len =>
          obtain ⟨res1, hres1, hbound1⟩ := ihR len r1 (by omega)
          cases res1 with
          | error e =>
            exact ⟨.error e, by simp [dValueF, hrt, hres1], fun v r' hres => by cases hres⟩
          | ok p1 =>
            obtain ⟨es, r2⟩ := p1
            refine ⟨.ok (.map es, r2), by simp [dValueF, hrt, hres1], ?_⟩
            intro v r' hres
            cases hres
            have := hbound1 es r2 rfl
            omega
    have hQ : DQ (f + 1) := by
      intro len
      induction len with
      | zero =>
        intro r hr
        exact ⟨.ok ([], r), by simp [dListF], fun vs r' hres => by cases hres; omega⟩
      | succ len ihlen =>
        intro r hr
        obtain ⟨res1, hres1, hbound1⟩ := hP r hr
        cases res1 with
        | error e =>
          exact ⟨.error e, by simp [dListF, hres1], fun vs r' hres => by cases hres⟩
        | ok p1 =>
          obtain ⟨v, r1⟩ := p1
          have hl1 := hbound1 v r1 rfl
          obtain ⟨res2, hres2, hbound2⟩ := ihlen r1 (by omega)
          cases res2 with
          | error e =>
            exact ⟨.error e, by simp [dListF, hres1, hres2],
              fun vs r' hres => by cases hres⟩
          | ok p2 =>
            obtain ⟨vs, r2⟩ := p2
            refine ⟨.ok (v :: vs, r2), by simp [dListF, hres1, hres2], ?_⟩
            intro vs' r' hres
            cases hres
            have := hbound2 vs r2 rfl
            omega
    have hR : DR (f + 1) := by
      intro len
      induction len with
      | zero =>
        intro r hr
        exact ⟨.ok ([], r), by simp [dPairsF], fun es r' hres => by cases hres; omega⟩
      | succ len ihlen =>
        intro r hr
        obtain ⟨res1, hres1, hbound1⟩ := hP r hr
        cases res1 with
        | error e =>
          exact ⟨.error e, by simp [dPairsF, hres1], fun es r' hres => by cases hres⟩
        | ok p1 =>
          obtain ⟨k, r1⟩ := p1
          have hl1 := hbound1 k r1 rfl
          obtain ⟨res2, hres2, hbound2⟩ := hP r1 (by omega)
          cases res2 with
          | error e =>
            exact ⟨.error e, by simp [dPairsF, hres1, hres2],
              fun es r' hres => by cases hres⟩
          | ok p2 =>
            obtain ⟨v, r2⟩ := p2
            have hl2 := hbound2 v r2 rfl
            obtain ⟨res3, hres3, hbound3⟩ := ihlen r2 (by omega)
            cases res3 with
            | error e =>
              exact ⟨.error e, by simp [dPairsF, hres1, hres2, hres3],
                fun es r' hres => by cases hres⟩
            | ok p3 =>
              obtain ⟨es, r3⟩ := p3
              refine ⟨.ok ((k, v) :: es, r3), by simp [dPairsF, hres1, hres2, hres3], ?_⟩
              intro es' r' hres
              cases hres
              have := hbound3 es r3 rfl
              omega
    exact ⟨hP, hQ, hR⟩

/-! ### The round-trip: decoding inverts encoding -/

theorem writeArrayLen_len_pos (len : Nat) : 1 ≤ (writeArrayLen len).length := by
  unfold writeArrayLen
  split_ifs <;> simp [beBytes_length]

theorem writeMapLen_len_pos (len : Nat) : 1 ≤ (writeMapLen len).length := by
  unfold writeMapLen
  split_ifs <;> simp [beBytes_length]

theorem roundtrip_aux : ∀ f, RTP f ∧ RTQ f ∧ RTR f := by
  intro f
  induction f with
  | zero =>
    refine ⟨?_, ?_, ?_⟩
    · intro v rest _ h; omega
    · intro vs rest _ h; omega
    · intro es rest _ h; omega
  | succ f ih =>
    obtain ⟨ihP, ihQ, ihR⟩ := ih
    have hP : RTP (f + 1) := by
      intro v rest hwf hlen
      cases v with
      | nil => simp [serializeValue, dValueF, readToken_writeNil]
      | bool b => simp [serializeValue, dValueF, readToken_writeBool]
      | int i =>
        simp only [RValue.wf, decide_eq_true_eq] at hwf
        simp [serializeValue, dValueF, readToken_serialize_int i hwf rest]
      | f32 bits =>
        simp only [RValue.wf, decide_eq_true_eq] at hwf
        simp [serializeValue, dValueF, readToken_writeF32 bits hwf rest]
      | f64 bits =>
        simp only [RValue.wf, decide_eq_true_eq] at hwf
        simp [serializeValue, dValueF, readToken_writeF64 bits hwf rest]
      | str d =>
        simp only [RValue.wf, decide_eq_true_eq] at hwf
        simp [serializeValue, dValueF, readToken_writeStr d hwf rest]
      | bin d =>
        simp only [RValue.wf, decide_eq_true_eq] at hwf
        simp [serializeValue, dValueF, readToken_writeBin d hwf rest]
      | ext tag d =>
        simp only [RValue.wf, Bool.and_eq_true, decide_eq_true_eq] at hwf
        obtain ⟨⟨h1, h2⟩, h3⟩ := hwf
        simp [serializeValue, dValueF, readToken_writeExt tag d h1 h2 h3 rest]
      | array vs =>
        simp only [RValue.wf, Bool.and_eq_true, decide_eq_true_eq] at hwf
        obtain ⟨hlen32, hwfl⟩ := hwf
        have hmod : vs.length % 2 ^ 32 = vs.length := Nat.mod_eq_of_lt hlen32
        simp only [serializeValue, hmod, List.append_assoc] at hlen ⊢
        have hhdr := writeArrayLen_len_pos vs.length
        have hq := ihQ vs rest hwfl
          (by simp only [List.length_append] at hlen ⊢; omega)
        simp [dValueF, readToken_writeArrayLen vs.length hlen32 (serializeList vs ++ rest),
          hq]
      | map es =>
        simp only [RValue.wf, Bool.and_eq_true, decide_eq_true_eq] at hwf
        obtain ⟨hlen32, hwfl⟩ := hwf
        have hmod : es.length % 2 ^ 32 = es.length := Nat.mod_eq_of_lt hlen32
        simp only [serializeValue, hmod, List.append_assoc] at hlen ⊢
        have hhdr := writeMapLen_len_pos es.length
        have hq := ihR es rest hwfl
          (by simp only [List.length_append] at hlen ⊢; omega)
        simp [dValueF, readToken_writeMapLen es.length hlen32 (serializePairs es ++ rest),
          hq]
    have hQ : RTQ (f + 1) := by
      intro vs
      induction vs with
      | nil =>
        intro rest hwf hlen
        simp [serializeList, dListF]
      | cons v vs ihvs =>
        intro rest hwf hlen
        simp only [wfList, Bool.and_eq_true] at hwf
        obtain ⟨hv, hvs⟩ := hwf
        simp only [serializeList, List.append_assoc] at hlen ⊢
        have h1 := hP v (serializeList vs ++ rest) hv hlen
        have h2 := ihvs rest hvs
          (by simp only [List.length_append] at hlen ⊢; omega)
        simp [dListF, h1, h2]
    have hR : RTR (f + 1) := by
      intro es
      induction es with
      | nil =>
        intro rest hwf hlen
        simp [serializePairs, dPairsF]
      | cons p es ihes =>
        obtain ⟨k, v⟩ := p
        intro rest hwf hlen
        simp only [wfPairs, Bool.and_eq_true] at hwf
        obtain ⟨⟨hk, hv⟩, hes⟩ := hwf
        simp only [serializePairs, List.append_assoc] at hlen ⊢
        have h1 := hP k (serializeValue v ++ (serializePairs es ++ rest)) hk hlen
        have h2 := hP v (serializePairs es ++ rest) hv
          (by simp only [List.length_append] at hlen ⊢; omega)
        have h3 := ihes rest hes
          (by simp only [List.length_append] at hlen ⊢; omega)
        simp [dPairsF, h1, h2, h3]
    exact ⟨hP, hQ, hR⟩

/-- The full binary round-trip for `Value` with trailing input preserved. -/
theorem dValueF_roundtrip (v : RValue) (rest : List Nat) (hwf : RValue.wf v)
    (f : Nat) (hf : (serializeValue v ++ rest).length < f) :
    dValueF f (serializeValue v ++ rest) = some (.ok (v, rest)) :=
  (roundtrip_aux f).1 v rest hwf hf

/-! ### The `Int` conversion claims -/

/-- C8: `try_into_i64` succeeds iff `sign` (the value is reinterpreted as a
negative i64) or `!sign && value <= i64::MAX`; `try_into_u64` succeeds iff
`!sign`; every i64 and u64 round-trips through `Int` exactly, and
converting the `Int` of `u64::MAX` to i64 fails. -/
theorem C8_int_native_conversions :
    (∀ i : RInt, i.value < 2 ^ 64 →
      ((tryIntoI64 i).isSome ↔ (i.sign = true ∨ i.value ≤ 2 ^ 63 - 1)))
    ∧ (∀ i : RInt, (tryIntoU64 i).isSome ↔ i.sign = false)
    ∧ (∀ i : RInt, i.sign = true → i.value < 2 ^ 64 → 2 ^ 63 ≤ i.value →
        tryIntoI64 i = some ((i.value : Int) - 2 ^ 64))
    ∧ (∀ x : Int, -(2 ^ 63) ≤ x → x < 2 ^ 63 → tryIntoI64 (intFromI64 x) = some x)
    ∧ (∀ y : Nat, tryIntoU64 (intFromU64 y) = some y)
    ∧ tryIntoI64 (intFromU64 (2 ^ 64 - 1)) = none := by
  refine ⟨?_, ?_, ?_, ?_, ?_, ?_⟩
  · intro i hdom
    obtain ⟨s, v⟩ := i
    have hdom' : v < 2 ^ 64 := hdom
    unfold tryIntoI64 asI64
    cases s with
    | false =>
      simp only [Bool.false_eq_true, if_false]
      constructor
      · intro h
        by_cases hv : v < 2 ^ 63
        · right
          show v ≤ 2 ^ 63 - 1
          omega
        · have hneg : ¬(0 : Int) ≤ (v : Int) - 2 ^ 64 := by omega
          rw [if_neg hv, if_neg hneg] at h
          simp at h
      · intro h
        rcases h with h | h
        · simp at h
        · have hv : v < 2 ^ 63 := by
            have h2 : v ≤ 2 ^ 63 - 1 := h
            omega
          rw [if_pos hv, if_pos (by positivity)]
          simp
    | true => simp
  · intro i
    obtain ⟨s, v⟩ := i
    unfold tryIntoU64
    cases s <;> simp
  · intro i hs hv hge
    obtain ⟨s, v⟩ := i
    have hs' : s = true := hs
    subst hs'
    have hv' : v < 2 ^ 64 := hv
    have hge' : 2 ^ 63 ≤ v := hge
    unfold tryIntoI64 asI64
    simp only [if_true]
    rw [if_neg (by norm_num; omega)]
  · intro x h1 h2
    unfold intFromI64
    by_cases h0 : 0 ≤ x
    · rw [if_pos h0]
      unfold tryIntoI64 intFromU64 asI64
      simp only [Bool.false_eq_true, if_false]
      have hp1 : x.toNat < 2 ^ 63 := by omega
      have hp2 : (0 : Int) ≤ (x.toNat : Int) := by positivity
      rw [if_pos hp1, if_pos hp2]
      simp only [Option.some.injEq]
      omega
    · rw [if_neg h0]
      unfold tryIntoI64 asI64
      simp only [if_true]
      have hneg : ¬(x + 2 ^ 64).toNat < 2 ^ 63 := by omega
      rw [if_neg hneg]
      simp only [Option.some.injEq]
      omega
  · intro y
    rfl
  · unfold intFromU64 tryIntoI64 asI64
    simp only [Bool.false_eq_true, if_false]
    rw [if_neg (by norm_num)]

theorem C8_int_native_conversions_witness :
    ((-(2 ^ 63) : Int) ≤ -5 ∧ (-5 : Int) < 2 ^ 63
      ∧ tryIntoI64 (intFromI64 (-5)) = some (-5))
    ∧ tryIntoU64 (intFromU64 7) = some 7
    ∧ tryIntoI64 (intFromU64 (2 ^ 64 - 1)) = none :=
  ⟨⟨by norm_num, by norm_num,
      C8_int_native_conversions.2.2.2.1 (-5) (by norm_num) (by norm_num)⟩,
    C8_int_native_conversions.2.2.2.2.1 7,
    C8_int_native_conversions.2.2.2.2.2⟩

/-- C10: every `Int` built by the public constructors satisfies the
invariant `sign = true → bit 63 of value is set`; on valid `Int`s the
derived structural equality coincides with the denoted integer, and every
integer in `-2^63 .. 2^64 - 1` has exactly one valid representation. -/
theorem C10_int_invariant :
    (∀ y : Nat, y < 2 ^ 64 → (intFromU64 y).valid)
    ∧ (∀ x : Int, -(2 ^ 63) ≤ x → x < 2 ^ 63 → (intFromI64 x).valid)
    ∧ (∀ y : Nat, y < 2 ^ 32 → (intFromU32 y).valid)
    ∧ (∀ x : Int, -(2 ^ 31) ≤ x → x < 2 ^ 31 → (intFromI32 x).valid)
    ∧ (∀ i j : RInt, i.valid → j.valid → (i = j ↔ i.toZ = j.toZ))
    ∧ (∀ z : Int, -(2 ^ 63) ≤ z → z < 2 ^ 64 → ∃! i : RInt, i.valid ∧ i.toZ = z) := by
  have hu : ∀ y : Nat, y < 2 ^ 64 → (intFromU64 y).valid := by
    intro y hy
    exact ⟨hy, fun h => by cases h⟩
  have hi : ∀ x : Int, -(2 ^ 63) ≤ x → x < 2 ^ 63 → (intFromI64 x).valid := by
    intro x h1 h2
    unfold intFromI64
    by_cases h0 : 0 ≤ x
    · rw [if_pos h0]
      exact hu x.toNat (by norm_num at h2 ⊢; omega)
    · rw [if_neg h0]
      refine ⟨?_, fun _ => ?_⟩
      · show (x + 2 ^ 64).toNat < 2 ^ 64
        norm_num
        omega
      · show 2 ^ 63 ≤ (x + 2 ^ 64).toNat
        norm_num at h1 ⊢
        omega
  have heq : ∀ i j : RInt, i.valid → j.valid → (i = j ↔ i.toZ = j.toZ) := by
    intro i j hvi hvj
    obtain ⟨si, vi⟩ := i
    obtain ⟨sj, vj⟩ := j
    obtain ⟨hi1, hi2⟩ := hvi
    obtain ⟨hj1, hj2⟩ := hvj
    have hi1' : vi < 2 ^ 64 := hi1
    have hj1' : vj < 2 ^ 64 := hj1
    constructor
    · intro h
      rw [h]
    · intro h
      unfold RInt.toZ at h
      cases si <;> cases sj
      · norm_num at h
        simp only [RInt.mk.injEq, true_and]
        omega
      · have hb : 2 ^ 63 ≤ vj := hj2 rfl
        norm_num at h
        exfalso
        omega
      · have hb : 2 ^ 63 ≤ vi := hi2 rfl
        norm_num at h
        exfalso
        omega
      · norm_num at h
        simp only [RInt.mk.injEq, true_and]
        omega
  refine ⟨hu, hi, fun y hy => hu y (by norm_num at hy ⊢; omega),
    fun x h1 h2 => hi x (by norm_num at h1 ⊢; omega) (by norm_num at h2 ⊢; omega),
    heq, ?_⟩
  intro z h1 h2
  by_cases h0 : 0 ≤ z
  · refine ⟨⟨false, z.toNat⟩, ⟨⟨?_, fun h => by cases h⟩, ?_⟩, ?_⟩
    · show z.toNat < 2 ^ 64
      norm_num at h2 ⊢
      omega
    · unfold RInt.toZ
      simp
      omega
    · intro j hj
      obtain ⟨hjv, hjz⟩ := hj
      have hv : RInt.valid ⟨false, z.toNat⟩ :=
        ⟨by show z.toNat < 2 ^ 64; norm_num at h2 ⊢; omega, fun h => by cases h⟩
      rw [heq j _ hjv hv, hjz]
      unfold RInt.toZ
      simp
      omega
  · refine ⟨⟨true, (z + 2 ^ 64).toNat⟩, ⟨⟨?_, fun _ => ?_⟩, ?_⟩, ?_⟩
    · show (z + 2 ^ 64).toNat < 2 ^ 64
      norm_num
      omega
    · show 2 ^ 63 ≤ (z + 2 ^ 64).toNat
      norm_num at h1 ⊢
      omega
    · unfold RInt.toZ
      simp
      norm_num at h1 ⊢
      omega
    · intro j hj
      obtain ⟨hjv, hjz⟩ := hj
      have hv : RInt.valid ⟨true, (z + 2 ^ 64).toNat⟩ := by
        refine ⟨?_, fun _ => ?_⟩
        · show (z + 2 ^ 64).toNat < 2 ^ 64
          norm_num
          omega
        · show 2 ^ 63 ≤ (z + 2 ^ 64).toNat
          norm_num at h1 ⊢
          omega
      rw [heq j _ hjv hv, hjz]
      unfold RInt.toZ
      simp
      norm_num at h1 ⊢
      omega

theorem C10_int_invariant_witness :
    ((5 : Nat) < 2 ^ 64 ∧ (intFromU64 5).valid)
    ∧ ((-(2 ^ 63) : Int) ≤ -7 ∧ (-7 : Int) < 2 ^ 63 ∧ (intFromI64 (-7)).valid) :=
  ⟨⟨by norm_num, C10_int_invariant.1 5 (by norm_num)⟩,
    ⟨by norm_num, by norm_num, C10_int_invariant.2.1 (-7) (by norm_num) (by norm_num)⟩⟩

theorem dAnyF_total : ∀ (f count : Nat) (r : List Nat), r.length < f →
    dAnyF f count r ≠ none := by
  intro f
  induction f with
  | zero => intro count r hr; omega
  | succ f ih =>
    intro count r hr
    cases count with
    | zero => simp [dAnyF]
    | succ count =>
      cases hrt : readToken r with
      | error e => simp [dAnyF, hrt]
      | ok p =>
        obtain ⟨t, r1⟩ := p
        have hlen := readToken_consumes hrt
        cases t <;> simp [dAnyF, hrt] <;> exact ih _ r1 (by omega)

/-- C9: deserialization always terminates: on any finite input, fuel
exceeding the input length is enough for both the recursive `Value`
decoder and the `deserialize_any` pending-count loop to produce a result
(a value or an error) — the fuel marker `none` is unreachable, so each
call finishes within a number of steps bounded by the input length. -/
theorem C9_deserialization_terminates :
    ∀ (r : List Nat) (f : Nat), r.length < f →
      dValueF f r ≠ none ∧ dAnyF f 1 r ≠ none := by
  intro r f hf
  constructor
  · obtain ⟨res, hres, _⟩ := (dValueF_total_aux f).1 r hf
    rw [hres]
    simp
  · exact dAnyF_total f 1 r hf

theorem C9_deserialization_terminates_witness :
    ([0x92, 0xc0] : List Nat).length < 3
    ∧ dValueF 3 [0x92, 0xc0] ≠ none ∧ dAnyF 3 1 [0x92, 0xc0] ≠ none :=
  ⟨by norm_num, C9_deserialization_terminates [0x92, 0xc0] 3 (by norm_num)⟩

/-! ### C1: the Value round-trip -/

/-- C1 (as stated) fails at `v = F32(NaN)`: the decode succeeds and
returns the bit-identical `Value`, but Rust `==` (the claim's "equal to
`v`") is false because `NaN != NaN`. -/
theorem C1_roundtrip_counterexample :
    dValue (serializeValue (.f32 0x7fc00000)) = .ok (.f32 0x7fc00000, [])
    ∧ valueEqRust (.f32 0x7fc00000) (.f32 0x7fc00000) = false := by
  constructor
  · have happ : serializeValue (.f32 0x7fc00000) ++ [] = serializeValue (.f32 0x7fc00000) :=
      List.append_nil _
    have h := dValueF_roundtrip (.f32 0x7fc00000) [] (by decide)
      ((serializeValue (.f32 0x7fc00000)).length + 1) (by rw [happ]; omega)
    rw [happ] at h
    unfold dValue
    rw [h]
  · decide

/-- C1 (amended): for every well-formed `Value` (lengths fitting u32, the
`Int` invariant, float bits in range), `deserialize::<Value>(serialize(&v))`
succeeds, consumes the whole input and returns the structurally identical
`Value` — Map entry order and duplicate keys preserved verbatim, float
payloads bit-for-bit (hence Rust-`==`-equal whenever `v` has no NaN). -/
theorem C1_value_roundtrip (v : RValue) (hwf : RValue.wf v) :
    dValue (serializeValue v) = .ok (v, []) := by
  have happ : serializeValue v ++ [] = serializeValue v := List.append_nil _
  have h := dValueF_roundtrip v [] hwf ((serializeValue v).length + 1) (by rw [happ]; omega)
  rw [happ] at h
  unfold dValue
  rw [h]

theorem C1_value_roundtrip_witness :
    RValue.wf (.map [(.int ⟨false, 1⟩, .nil), (.int ⟨false, 1⟩, .bool true),
        (.array [.str [120]], .ext (-3) [7, 8])]) = true
    ∧ dValue (serializeValue (.map [(.int ⟨false, 1⟩, .nil), (.int ⟨false, 1⟩, .bool true),
        (.array [.str [120]], .ext (-3) [7, 8])]))
      = .ok (.map [(.int ⟨false, 1⟩, .nil), (.int ⟨false, 1⟩, .bool true),
        (.array [.str [120]], .ext (-3) [7, 8])], []) :=
  ⟨by decide, C1_value_roundtrip _ (by decide)⟩

/-- C4: `try_deserialize` (a) on success returns `Ok(Some v)` with the
cursor exactly where the decode left it, (b) on a validation failure
returns `Ok(None)` with the cursor equal to its pre-attempt position, and
(c) propagates a wire-level `InvalidInputError` unchanged, never turning
it into a try-next-variant signal. -/
theorem C4_try_deserialize {α : Type}
    (d : List Nat → Except RErr (α × List Nat)) (r : List Nat) :
    (∀ v r', d r = .ok (v, r') → tryDeserialize d r = .ok (some v, r'))
    ∧ (d r = .error .validation → tryDeserialize d r = .ok (none, r))
    ∧ (d r = .error .invalidInput → tryDeserialize d r = .error .invalidInput) := by
  refine ⟨?_, ?_, ?_⟩
  · intro v r' h
    unfold tryDeserialize
    rw [h]
  · intro h
    unfold tryDeserialize
    rw [h]
  · intro h
    unfold tryDeserialize
    rw [h]

theorem C4_try_deserialize_witness :
    (deserializeU32 [42] = .ok (42, [])
      ∧ tryDeserialize deserializeU32 [42] = .ok (some 42, []))
    ∧ (deserializeU32 [0xc0] = .error .validation
      ∧ tryDeserialize deserializeU32 [0xc0] = .ok (none, [0xc0]))
    ∧ (deserializeU32 [] = .error .invalidInput
      ∧ tryDeserialize deserializeU32 [] = .error .invalidInput) :=
  ⟨⟨rfl, (C4_try_deserialize deserializeU32 [42]).1 42 [] rfl⟩,
    ⟨rfl, (C4_try_deserialize deserializeU32 [0xc0]).2.1 rfl⟩,
    ⟨rfl, (C4_try_deserialize deserializeU32 []).2.2 rfl⟩⟩

theorem tryIntoU32_intFromU32 (n : Nat) (h : n < 2 ^ 32) :
    tryIntoU32 (intFromU32 n) = some n := by
  unfold tryIntoU32 intFromU32 intFromU64 tryIntoU64
  simp only [Bool.false_eq_true, if_false]
  rw [if_pos h]

theorem intFromU32_valid (n : Nat) (h : n < 2 ^ 32) : (intFromU32 n).valid :=
  ⟨by show n < 2 ^ 64; omega, fun hh => by cases hh⟩

/-- Decoding a serialized u32 recovers it (with the cursor past it). -/
theorem deserializeU32_serializeU32 (n : Nat) (h : n < 2 ^ 32) (rest : List Nat) :
    deserializeU32 (serializeU32 n ++ rest) = .ok (n, rest) := by
  unfold deserializeU32 serializeU32
  rw [readToken_serialize_int (intFromU32 n) (intFromU32_valid n h) rest]
  simp [tryIntoU32_intFromU32 n h]

/-- Decoding a serialized String recovers it. -/
theorem deserializeString_writeStr (s : List Nat) (hlen : s.length < 2 ^ 32)
    (hval : utf8Valid s) (rest : List Nat) :
    deserializeString (writeStr s ++ rest) = .ok (s, rest) := by
  unfold deserializeString
  rw [readToken_writeStr s hlen rest]
  simp [hval]

/-- C5: untagged-enum decoding tries variants in declaration order with
peek-and-restore: a successful `String` decode wins without attempting
`Dog`; when `String` fails validation the `u32` attempt starts from the
original cursor position; when both fail validation the result is a
validation error; a wire-level error propagates; in particular the bare
integer 3 decodes to `Dog(3)` and the string "x" to `Cat("x")`. -/
theorem C5_untagged_enum_order :
    (∀ r s r', deserializeString r = .ok (s, r') →
      animalDeserialize r = .ok (.cat s, r'))
    ∧ (∀ r n r', deserializeString r = .error .validation →
      deserializeU32 r = .ok (n, r') → animalDeserialize r = .ok (.dog n, r'))
    ∧ (∀ r, deserializeString r = .error .validation →
      deserializeU32 r = .error .validation →
      animalDeserialize r = .error .validation)
    ∧ (∀ r, deserializeString r = .error .invalidInput →
      animalDeserialize r = .error .invalidInput)
    ∧ animalDeserialize (serializeU32 3) = .ok (.dog 3, [])
    ∧ animalDeserialize (writeStr [120]) = .ok (.cat [120], []) := by
  refine ⟨?_, ?_, ?_, ?_, rfl, rfl⟩
  · intro r s r' h
    unfold animalDeserialize tryDeserialize
    rw [h]
  · intro r n r' hs hn
    unfold animalDeserialize tryDeserialize
    rw [hs, hn]
  · intro r hs hn
    unfold animalDeserialize tryDeserialize
    rw [hs, hn]
  · intro r hs
    unfold animalDeserialize tryDeserialize
    rw [hs]

theorem C5_untagged_enum_order_witness :
    (deserializeString (writeStr [120]) = .ok ([120], [])
      ∧ animalDeserialize (writeStr [120]) = .ok (.cat [120], []))
    ∧ (deserializeString (serializeU32 3) = .error .validation
      ∧ deserializeU32 (serializeU32 3) = .ok (3, [])
      ∧ animalDeserialize (serializeU32 3) = .ok (.dog 3, []))
    ∧ (deserializeString [0xc0] = .error .validation
      ∧ deserializeU32 [0xc0] = .error .validation
      ∧ animalDeserialize [0xc0] = .error .validation)
    ∧ (deserializeString [] = .error .invalidInput
      ∧ animalDeserialize [] = .error .invalidInput) :=
  ⟨⟨rfl, C5_untagged_enum_order.1 (writeStr [120]) [120] [] rfl⟩,
    ⟨rfl, rfl, C5_untagged_enum_order.2.1 (serializeU32 3) 3 [] rfl rfl⟩,
    ⟨rfl, rfl, C5_untagged_enum_order.2.2.1 [0xc0] rfl rfl⟩,
    ⟨rfl, C5_untagged_enum_order.2.2.2.1 [] rfl⟩⟩

/-- C3 as stated is false: an Array of length 2 whose tag names the unit
variant `Bird` decodes successfully (to `Bird`, payload unconsumed)
instead of failing — `[3, 42]` decodes to `Ok(Bird)`. -/
theorem C3_enum_counterexample :
    eDeserialize [0x92, 0x03, 0x2a] = .ok (.bird, [0x2a]) := rfl

/-- C3 (amended): bare-Int decoding succeeds exactly for the unit and
empty-tuple variants and fails for the newtype variant and unknown tags;
Array decoding requires length 2, then succeeds for the newtype variant
(decoding the payload) and fails for the empty-tuple variant and unknown
tags — but an Array tag naming the unit variant also succeeds, yielding
the unit variant with the payload left unconsumed. -/
theorem C3_enum_tag_shapes :
    (∀ rest, eDeserialize (serializeU32 2 ++ rest) = .ok (.dog, rest))
    ∧ (∀ rest, eDeserialize (serializeU32 3 ++ rest) = .ok (.bird, rest))
    ∧ (∀ rest, eDeserialize (serializeU32 1 ++ rest) = .error .validation)
    ∧ (∀ rest, eDeserialize (serializeU32 7 ++ rest) = .error .validation)
    ∧ (∀ n rest, n < 2 ^ 32 →
      eDeserialize (writeArrayLen 2 ++ serializeU32 1 ++ serializeU32 n ++ rest)
        = .ok (.cat n, rest))
    ∧ (∀ rest, eDeserialize (writeArrayLen 2 ++ serializeU32 2 ++ rest)
        = .error .validation)
    ∧ (∀ rest, eDeserialize (writeArrayLen 2 ++ serializeU32 3 ++ rest)
        = .ok (.bird, rest))
    ∧ (∀ rest, eDeserialize (writeArrayLen 2 ++ serializeU32 7 ++ rest)
        = .error .validation)
    ∧ (∀ rest, eDeserialize (writeArrayLen 1 ++ rest) = .error .validation) := by
  have hbare : ∀ (t : Nat), t < 2 ^ 32 → ∀ rest,
      eDeserialize (serializeU32 t ++ rest) = eDispatch t false rest := by
    intro t ht rest
    unfold eDeserialize serializeU32
    rw [readToken_serialize_int (intFromU32 t) (intFromU32_valid t ht) rest]
    simp [tryIntoU32_intFromU32 t ht]
  have harr : ∀ (t : Nat), t < 2 ^ 32 → ∀ rest,
      eDeserialize (writeArrayLen 2 ++ serializeU32 t ++ rest)
        = eDispatch t true rest := by
    intro t ht rest
    unfold eDeserialize
    rw [List.append_assoc, readToken_writeArrayLen 2 (by norm_num) _]
    simp [deserializeU32_serializeU32 t ht rest]
  refine ⟨?_, ?_, ?_, ?_, ?_, ?_, ?_, ?_, ?_⟩
  · intro rest
    rw [hbare 2 (by norm_num) rest]
    rfl
  · intro rest
    rw [hbare 3 (by norm_num) rest]
    rfl
  · intro rest
    rw [hbare 1 (by norm_num) rest]
    rfl
  · intro rest
    rw [hbare 7 (by norm_num) rest]
    rfl
  · intro n rest hn
    rw [show writeArrayLen 2 ++ serializeU32 1 ++ serializeU32 n ++ rest
        = writeArrayLen 2 ++ serializeU32 1 ++ (serializeU32 n ++ rest) by
      simp [List.append_assoc]]
    rw [harr 1 (by norm_num) (serializeU32 n ++ rest)]
    unfold eDispatch
    simp [deserializeU32_serializeU32 n hn rest]
  · intro rest
    rw [harr 2 (by norm_num) rest]
    rfl
  · intro rest
    rw [harr 3 (by norm_num) rest]
    rfl
  · intro rest
    rw [harr 7 (by norm_num) rest]
    rfl
  · intro rest
    unfold eDeserialize
    rw [readToken_writeArrayLen 1 (by norm_num) rest]
    simp

theorem C3_enum_tag_shapes_witness :
    eDeserialize (serializeU32 2 ++ []) = .ok (.dog, [])
    ∧ ((42 : Nat) < 2 ^ 32
      ∧ eDeserialize (writeArrayLen 2 ++ serializeU32 1 ++ serializeU32 42 ++ [])
        = .ok (.cat 42, []))
    ∧ eDeserialize (writeArrayLen 2 ++ serializeU32 2 ++ []) = .error .validation :=
  ⟨C3_enum_tag_shapes.1 [],
    ⟨by norm_num, C3_enum_tag_shapes.2.2.2.2.1 42 [] (by norm_num)⟩,
    C3_enum_tag_shapes.2.2.2.2.2.1 []⟩

theorem serializeList_append (a b : List RValue) :
    serializeList (a ++ b) = serializeList a ++ serializeList b := by
  induction a with
  | nil => simp [serializeList]
  | cons v a ih => simp [serializeList, ih]

theorem serializeList_pairsFlatten (es : List (RValue × RValue)) :
    serializeList (pairsFlatten es) = serializePairs es := by
  induction es with
  | nil => rfl
  | cons p es ih =>
    obtain ⟨k, v⟩ := p
    simp [pairsFlatten, serializeList, serializePairs, ih]

theorem wfList_append (a b : List RValue) :
    wfList (a ++ b) = (wfList a && wfList b) := by
  induction a with
  | nil => simp [wfList]
  | cons v a ih => simp [wfList, ih, Bool.and_assoc]

theorem wfList_pairsFlatten (es : List (RValue × RValue)) :
    wfList (pairsFlatten es) = wfPairs es := by
  induction es with
  | nil => rfl
  | cons p es ih =>
    obtain ⟨k, v⟩ := p
    simp [pairsFlatten, wfList, wfPairs, ih, Bool.and_assoc]

theorem pairsFlatten_length (es : List (RValue × RValue)) :
    (pairsFlatten es).length = 2 * es.length := by
  induction es with
  | nil => rfl
  | cons p es ih =>
    obtain ⟨k, v⟩ := p
    simp [pairsFlatten, ih]
    omega

theorem writeUint_len_pos (n : Nat) : 1 ≤ (writeUint n).length := by
  unfold writeUint
  split_ifs <;> simp [beBytes_length]

theorem writeSint_len_pos (z : Int) : 1 ≤ (writeSint z).length := by
  unfold writeSint
  split_ifs <;> simp [beBytes_length, writeUint_len_pos]

theorem serialize_int_len_pos (i : RInt) : 1 ≤ (serialize_int i).length := by
  unfold serialize_int
  cases tryIntoI64 i <;> simp [writeUint_len_pos, writeSint_len_pos]

/-- Every serialized value starts with at least one header byte. -/
theorem serializeValue_len_pos (v : RValue) : 1 ≤ (serializeValue v).length := by
  cases v with
  | nil => simp [serializeValue, writeNil]
  | bool b => cases b <;> simp [serializeValue, writeBool]
  | int i => simp only [serializeValue]; exact serialize_int_len_pos i
  | f32 bits => simp [serializeValue, writeF32]
  | f64 bits => simp [serializeValue, writeF64]
  | str d =>
    simp only [serializeValue, writeStr]
    split_ifs <;> simp [beBytes_length]
  | bin d =>
    simp only [serializeValue, writeBin]
    split_ifs <;> simp [beBytes_length]
  | array vs =>
    simp only [serializeValue, List.length_append]
    have := writeArrayLen_len_pos (vs.length % 2 ^ 32)
    omega
  | map es =>
    simp only [serializeValue, List.length_append]
    have := writeMapLen_len_pos (es.length % 2 ^ 32)
    omega
  | ext tag d =>
    simp only [serializeValue, writeExt]
    split_ifs <;> simp [beBytes_length]

/-- The pending-count loop of `deserialize_any`, run with `n` pending
values on the concatenated serializations of `n` well-formed values,
consumes exactly those bytes. -/
theorem length_le_serializeList : ∀ (vs : List RValue),
    vs.length ≤ (serializeList vs).length := by
  intro vs
  induction vs with
  | nil => simp [serializeList]
  | cons v vs ih =>
    have hpos := serializeValue_len_pos v
    simp only [serializeList, List.length_append, List.length_cons]
    omega

theorem wfPairs_replicate_nil :
    ∀ n : Nat, wfPairs (List.replicate n (.nil, .nil)) = true := by
  intro n
  induction n with
  | zero => rfl
  | succ n ih => simp [List.replicate_succ, wfPairs, RValue.wf, ih]

theorem serializePairs_len_pos (k v : RValue) (es : List (RValue × RValue)) :
    1 ≤ (serializePairs ((k, v) :: es)).length := by
  have := serializeValue_len_pos k
  simp only [serializePairs, List.length_append]
  omega

theorem dAnyF_serializeList : ∀ (f : Nat) (vs : List RValue) (rest : List Nat),
    wfList vs → (serializeList vs ++ rest).length < f →
    (serializeList vs).length < 2 ^ 32 →
    dAnyF f vs.length (serializeList vs ++ rest) = some (.ok rest) := by
  intro f
  induction f with
  | zero => intro vs rest _ h _; omega
  | succ f ih =>
    intro vs rest hwf hlen hb
    cases vs with
    | nil => simp [serializeList, dAnyF]
    | cons v vs =>
      simp only [wfList, Bool.and_eq_true] at hwf
      obtain ⟨hv, hvs⟩ := hwf
      simp only [serializeList, List.append_assoc, List.length_cons] at hlen ⊢
      simp only [serializeList, List.length_append] at hb
      have hpos := serializeValue_len_pos v
      cases v with
      | nil =>
        simp only [serializeValue]
        simp only [dAnyF, readToken_writeNil]
        refine ih vs rest hvs ?_ (by omega)
        simp only [serializeValue, List.length_append] at hlen hpos ⊢
        omega
      | bool b =>
        simp only [serializeValue]
        simp only [dAnyF, readToken_writeBool]
        refine ih vs rest hvs ?_ (by omega)
        simp only [serializeValue, List.length_append] at hlen hpos ⊢
        omega
      | int i =>
        simp only [RValue.wf, decide_eq_true_eq] at hv
        simp only [serializeValue]
        simp only [dAnyF, readToken_serialize_int i hv]
        refine ih vs rest hvs ?_ (by omega)
        simp only [serializeValue, List.length_append] at hlen hpos ⊢
        omega
      | f32 bits =>
        simp only [RValue.wf, decide_eq_true_eq] at hv
        simp only [serializeValue]
        simp only [dAnyF, readToken_writeF32 bits hv]
        refine ih vs rest hvs ?_ (by omega)
        simp only [serializeValue, List.length_append] at hlen hpos ⊢
        omega
      | f64 bits =>
        simp only [RValue.wf, decide_eq_true_eq] at hv
        simp only [serializeValue]
        simp only [dAnyF, readToken_writeF64 bits hv]
        refine ih vs rest hvs ?_ (by omega)
        simp only [serializeValue, List.length_append] at hlen hpos ⊢
        omega
      | str d =>
        simp only [RValue.wf, decide_eq_true_eq] at hv
        simp only [serializeValue]
        simp only [dAnyF, readToken_writeStr d hv]
        refine ih vs rest hvs ?_ (by omega)
        simp only [serializeValue, List.length_append] at hlen hpos ⊢
        omega
      | bin d =>
        simp only [RValue.wf, decide_eq_true_eq] at hv
        simp only [serializeValue]
        simp only [dAnyF, readToken_writeBin d hv]
        refine ih vs rest hvs ?_ (by omega)
        simp only [serializeValue, List.length_append] at hlen hpos ⊢
        omega
      | ext tag d =>
        simp only [RValue.wf, Bool.and_eq_true, decide_eq_true_eq] at hv
        obtain ⟨⟨h1, h2⟩, h3⟩ := hv
        simp only [serializeValue]
        simp only [dAnyF, readToken_writeExt tag d h1 h2 h3]
        refine ih vs rest hvs ?_ (by omega)
        simp only [serializeValue, List.length_append] at hlen hpos ⊢
        omega
      | array elems =>
        simp only [RValue.wf, Bool.and_eq_true, decide_eq_true_eq] at hv
        obtain ⟨hl32, hwfe⟩ := hv
        have hmod : elems.length % 2 ^ 32 = elems.length := Nat.mod_eq_of_lt hl32
        simp only [serializeValue, hmod, List.append_assoc] at hlen ⊢
        simp only [serializeValue, hmod, List.length_append] at hb
        simp only [dAnyF, readToken_writeArrayLen elems.length hl32]
        have hb' : (serializeList (elems ++ vs)).length < 2 ^ 32 := by
          rw [serializeList_append]
          simp only [List.length_append]
          omega
        have hmodc : (vs.length + elems.length) % 2 ^ 32
            = vs.length + elems.length := by
          apply Nat.mod_eq_of_lt
          have hle := length_le_serializeList (elems ++ vs)
          rw [serializeList_append] at hle
          simp only [List.length_append] at hle
          omega
        rw [hmodc]
        have hcnt : vs.length + elems.length = (elems ++ vs).length := by
          simp only [List.length_append]
          omega
        have hser : serializeList elems ++ (serializeList vs ++ rest)
            = serializeList (elems ++ vs) ++ rest := by
          rw [serializeList_append, List.append_assoc]
        rw [hcnt, hser]
        refine ih (elems ++ vs) rest ?_ ?_ hb'
        · rw [wfList_append]
          simp [hwfe, hvs]
        · rw [← hser]
          simp only [List.length_append] at hlen ⊢
          have := writeArrayLen_len_pos elems.length
          omega
      | map es =>
        simp only [RValue.wf, Bool.and_eq_true, decide_eq_true_eq] at hv
        obtain ⟨hl32, hwfe⟩ := hv
        have hmod : es.length % 2 ^ 32 = es.length := Nat.mod_eq_of_lt hl32
        simp only [serializeValue, hmod, List.append_assoc] at hlen ⊢
        simp only [serializeValue, hmod, List.length_append] at hb
        simp only [dAnyF, readToken_writeMapLen es.length hl32]
        have hlep : 2 * es.length ≤ (serializePairs es).length := by
          have h1 := length_le_serializeList (pairsFlatten es)
          rw [serializeList_pairsFlatten, pairsFlatten_length] at h1
          omega
        have hlev := length_le_serializeList vs
        have h2l : es.length * 2 % 2 ^ 32 = es.length * 2 := by
          apply Nat.mod_eq_of_lt
          omega
        have hmodc : (vs.length + es.length * 2) % 2 ^ 32
            = vs.length + es.length * 2 := by
          apply Nat.mod_eq_of_lt
          omega
        rw [h2l, hmodc]
        have hcnt : vs.length + es.length * 2 = (pairsFlatten es ++ vs).length := by
          simp only [List.length_append, pairsFlatten_length]
          omega
        have hser : serializePairs es ++ (serializeList vs ++ rest)
            = serializeList (pairsFlatten es ++ vs) ++ rest := by
          rw [serializeList_append, serializeList_pairsFlatten, List.append_assoc]
        rw [hcnt, hser]
        refine ih (pairsFlatten es ++ vs) rest ?_ ?_ ?_
        · rw [wfList_append, wfList_pairsFlatten]
          simp [hwfe, hvs]
        · rw [← hser]
          simp only [List.length_append] at hlen ⊢
          have := writeMapLen_len_pos es.length
          omega
        · rw [serializeList_append, serializeList_pairsFlatten]
          simp only [List.length_append]
          omega

/-- `deserialize_any` consumes exactly one well-formed serialized value,
whatever its shape, and leaves the cursor right after it — provided the
serialization is shorter than `2 ^ 32` bytes, which keeps every
intermediate u32 pending count (bounded by the number of values still to
discard, hence by the remaining byte count) from wrapping. -/
theorem dAny_serializeValue (w : RValue) (hwf : RValue.wf w)
    (hwb : (serializeValue w).length < 2 ^ 32) (rest : List Nat) :
    dAny (serializeValue w ++ rest) = .ok rest := by
  unfold dAny
  have hser : serializeList [w] = serializeValue w := by
    simp [serializeList]
  have h := dAnyF_serializeList ((serializeValue w ++ rest).length + 1) [w] rest
    (by simp [wfList, hwf]) (by rw [hser]; omega) (by rw [hser]; exact hwb)
  rw [hser] at h
  simp only [List.length_cons, List.length_nil] at h
  rw [h]

/-- C2 as stated is false: decoding a Map with two entries for the known
tag 0 fails, but with the wire-level `InvalidInputError`, not a
schema-level validation error (`DuplicatedField` does not exist in the
code; the duplicate-tag filter returns `InvalidInputError`). -/
theorem C2_duplicate_tag_counterexample :
    sDeserialize (serializeValue (.map
        [(.int ⟨false, 0⟩, .int ⟨false, 42⟩),
         (.int ⟨false, 0⟩, .int ⟨false, 43⟩),
         (.int ⟨false, 1⟩, .str [97])]))
      = .error .invalidInput
    ∧ (Except.error RErr.invalidInput
        : Except RErr (SStruct × List Nat)) ≠ .error .validation := by
  constructor
  · rfl
  · intro h
    cases h

/-- C2 (amended): decoding a Map whose first two entries carry the same
known tag fails as soon as the duplicate tag is read, with the wire-level
`InvalidInputError` — independent of the field values and of everything
after the duplicate tag. -/
theorem C2_duplicate_tag_rejected (a : Nat) (ha : a < 2 ^ 32)
    (len : Nat) (hlen : len + 2 < 2 ^ 32) (rest : List Nat) :
    sDeserialize (writeMapLen (len + 2) ++ serializeU32 0 ++ serializeU32 a ++
        serializeU32 0 ++ rest)
      = .error .invalidInput := by
  unfold sDeserialize
  rw [show writeMapLen (len + 2) ++ serializeU32 0 ++ serializeU32 a ++
      serializeU32 0 ++ rest
      = writeMapLen (len + 2) ++ (serializeU32 0 ++ (serializeU32 a ++
        (serializeU32 0 ++ rest))) by simp [List.append_assoc]]
  rw [readToken_writeMapLen (len + 2) hlen]
  simp only [sDeserializeLoop,
    deserializeU32_serializeU32 0 (by norm_num) (serializeU32 a ++ (serializeU32 0 ++ rest)),
    deserializeU32_serializeU32 a ha (serializeU32 0 ++ rest),
    deserializeU32_serializeU32 0 (by norm_num) rest]
  simp [sDeserializeLoop,
    deserializeU32_serializeU32 0 (by norm_num) rest]

theorem C2_duplicate_tag_rejected_witness :
    (42 : Nat) < 2 ^ 32 ∧ (0 : Nat) + 2 < 2 ^ 32
    ∧ sDeserialize (writeMapLen 2 ++ serializeU32 0 ++ serializeU32 42 ++
        serializeU32 0 ++ [43]) = .error .invalidInput :=
  ⟨by norm_num, by norm_num,
    C2_duplicate_tag_rejected 42 (by norm_num) 0 (by norm_num) [43]⟩

/-- C6 as stated fails for an unrecognized entry whose value is a Map of
`2 ^ 31` entries: the value is well formed, but `deserialize_any`'s u32
pending count computes `len * 2 = 2 ^ 32`, which wraps to `0` (a debug
build aborts at this overflow instead), so the loop stops right after the
map header, leaving all `2 ^ 32` serialized entry values unconsumed
instead of discarding exactly one value. -/
theorem C6_count_overflow_counterexample :
    RValue.wf bigMap = true
    ∧ dAny (serializeValue bigMap)
        = .ok (serializePairs (List.replicate (2 ^ 31) (.nil, .nil)))
    ∧ ¬ (∀ rest, dAny (serializeValue bigMap ++ rest) = .ok rest) := by
  have hstep : ∀ (g : Nat) (tl : List Nat),
      dAnyF (g + 1) 1 (writeMapLen (2 ^ 31) ++ tl) = some (.ok tl) := by
    intro g tl
    show dAnyF (g + 1) (0 + 1) (writeMapLen (2 ^ 31) ++ tl) = some (.ok tl)
    simp only [dAnyF, readToken_writeMapLen (2 ^ 31) (by norm_num) tl]
    norm_num
    simp [dAnyF]
  have hwrap : ∀ tl : List Nat, dAny (writeMapLen (2 ^ 31) ++ tl) = .ok tl := by
    intro tl
    unfold dAny
    rw [hstep]
  have htail : serializeValue bigMap
      = writeMapLen (2 ^ 31)
        ++ serializePairs (List.replicate (2 ^ 31) (.nil, .nil)) := by
    simp only [bigMap, serializeValue, List.length_replicate]
    norm_num
  have hmain : dAny (serializeValue bigMap)
      = .ok (serializePairs (List.replicate (2 ^ 31) (.nil, .nil))) := by
    rw [htail]
    exact hwrap _
  have hne : serializePairs (List.replicate (2 ^ 31) (.nil, .nil)) ≠ [] := by
    rw [show (2 ^ 31 : Nat) = 2 ^ 31 - 1 + 1 by norm_num, List.replicate_succ]
    intro hcon
    have hp := serializePairs_len_pos .nil .nil
      (List.replicate (2 ^ 31 - 1) (.nil, .nil))
    rw [hcon] at hp
    simp at hp
  refine ⟨?_, hmain, ?_⟩
  · simp only [bigMap, RValue.wf, List.length_replicate, wfPairs_replicate_nil,
      Bool.and_true, decide_eq_true_eq]
    norm_num
  · intro hall
    have h1 := hall []
    rw [List.append_nil, hmain] at h1
    exact hne (Except.ok.inj h1)

/-- C6 (amended): struct decoding ignores an extra Map entry with an
unrecognized tag, whatever the shape of its value (scalar or nested
composite), provided the value's serialization is shorter than `2 ^ 32`
bytes so the u32 pending count of `deserialize_any` cannot overflow: the
Map with the extra entry decodes to exactly the struct of the Map without
it, and the discard path (`deserialize_any`, the pending-count loop)
consumes exactly the one serialized value of the unknown entry. -/
theorem C6_unknown_tag_tolerance (a : Nat) (ha : a < 2 ^ 32)
    (s : List Nat) (hs : utf8Valid s = true) (hslen : s.length < 2 ^ 32)
    (t : Nat) (ht : t < 2 ^ 32) (ht0 : t ≠ 0) (ht1 : t ≠ 1)
    (w : RValue) (hw : RValue.wf w)
    (hwb : (serializeValue w).length < 2 ^ 32) :
    sDeserialize (writeMapLen 3 ++ serializeU32 0 ++ serializeU32 a ++
        serializeU32 t ++ serializeValue w ++ serializeU32 1 ++ writeStr s)
      = .ok (⟨a, s⟩, [])
    ∧ sDeserialize (writeMapLen 2 ++ serializeU32 0 ++ serializeU32 a ++
        serializeU32 1 ++ writeStr s) = .ok (⟨a, s⟩, [])
    ∧ (∀ rest, dAny (serializeValue w ++ rest) = .ok rest) := by
  refine ⟨?_, ?_, fun rest => dAny_serializeValue w hw hwb rest⟩
  · rw [show writeMapLen 3 ++ serializeU32 0 ++ serializeU32 a ++
        serializeU32 t ++ serializeValue w ++ serializeU32 1 ++ writeStr s
        = writeMapLen 3 ++ (serializeU32 0 ++ (serializeU32 a ++
          (serializeU32 t ++ (serializeValue w ++ (serializeU32 1 ++
            writeStr s))))) by simp [List.append_assoc]]
    unfold sDeserialize
    rw [readToken_writeMapLen 3 (by norm_num)]
    have h1 := deserializeU32_serializeU32 0 (by norm_num)
      (serializeU32 a ++ (serializeU32 t ++ (serializeValue w ++
        (serializeU32 1 ++ writeStr s))))
    have h2 := deserializeU32_serializeU32 a ha
      (serializeU32 t ++ (serializeValue w ++ (serializeU32 1 ++ writeStr s)))
    have h3 := deserializeU32_serializeU32 t ht
      (serializeValue w ++ (serializeU32 1 ++ writeStr s))
    have h4 := dAny_serializeValue w hw hwb (serializeU32 1 ++ writeStr s)
    have h5 := deserializeU32_serializeU32 1 (by norm_num) (writeStr s)
    have h6 : deserializeString (writeStr s) = .ok (s, []) := by
      have hx := deserializeString_writeStr s hslen hs []
      rwa [List.append_nil] at hx
    simp [sDeserializeLoop, h1, h2, h3, h4, h5, h6, ht0, ht1]
  · rw [show writeMapLen 2 ++ serializeU32 0 ++ serializeU32 a ++
        serializeU32 1 ++ writeStr s
        = writeMapLen 2 ++ (serializeU32 0 ++ (serializeU32 a ++
          (serializeU32 1 ++ writeStr s))) by simp [List.append_assoc]]
    unfold sDeserialize
    rw [readToken_writeMapLen 2 (by norm_num)]
    have h1 := deserializeU32_serializeU32 0 (by norm_num)
      (serializeU32 a ++ (serializeU32 1 ++ writeStr s))
    have h2 := deserializeU32_serializeU32 a ha
      (serializeU32 1 ++ writeStr s)
    have h5 := deserializeU32_serializeU32 1 (by norm_num) (writeStr s)
    have h6 : deserializeString (writeStr s) = .ok (s, []) := by
      have hx := deserializeString_writeStr s hslen hs []
      rwa [List.append_nil] at hx
    simp [sDeserializeLoop, h1, h2, h5, h6]

theorem C6_unknown_tag_tolerance_witness :
    ((42 : Nat) < 2 ^ 32 ∧ utf8Valid [97] = true ∧ ([97] : List Nat).length < 2 ^ 32
      ∧ (5 : Nat) < 2 ^ 32 ∧ (5 : Nat) ≠ 0 ∧ (5 : Nat) ≠ 1
      ∧ RValue.wf (.array [.nil, .map [(.int ⟨false, 2⟩, .bool true)]]) = true
      ∧ (serializeValue
          (.array [.nil, .map [(.int ⟨false, 2⟩, .bool true)]])).length < 2 ^ 32)
    ∧ sDeserialize (writeMapLen 3 ++ serializeU32 0 ++ serializeU32 42 ++
        serializeU32 5 ++
        serializeValue (.array [.nil, .map [(.int ⟨false, 2⟩, .bool true)]]) ++
        serializeU32 1 ++ writeStr [97])
      = .ok (⟨42, [97]⟩, [])
    ∧ sDeserialize (writeMapLen 2 ++ serializeU32 0 ++ serializeU32 42 ++
        serializeU32 1 ++ writeStr [97]) = .ok (⟨42, [97]⟩, []) :=
  ⟨⟨by norm_num, by decide, by norm_num, by norm_num, by norm_num, by norm_num,
      by decide, by decide⟩,
    (C6_unknown_tag_tolerance 42 (by norm_num) [97] (by decide) (by norm_num)
      5 (by norm_num) (by norm_num) (by norm_num)
      (.array [.nil, .map [(.int ⟨false, 2⟩, .bool true)]]) (by decide)
      (by decide)).1,
    (C6_unknown_tag_tolerance 42 (by norm_num) [97] (by decide) (by norm_num)
      5 (by norm_num) (by norm_num) (by norm_num)
      (.array [.nil, .map [(.int ⟨false, 2⟩, .bool true)]]) (by decide)
      (by decide)).2.1⟩

/-- C7: with the optional field `Some`, the struct serializes to a Map
whose length (2) counts the field and whose entries include `(1, value)`;
with `None` the Map length is 1 and no tag-1 entry is emitted; decoding
the 1-entry form succeeds with `name = None`, and the 2-entry form
round-trips as well. -/
theorem C7_optional_field (age : Nat) (hage : age < 2 ^ 32)
    (s : List Nat) (hs : utf8Valid s = true) (hslen : s.length < 2 ^ 32) :
    humanCountFields ⟨age, some s⟩ = 2
    ∧ humanCountFields ⟨age, none⟩ = 1
    ∧ humanSerialize ⟨age, some s⟩
      = writeMapLen 2 ++ serializeU32 0 ++ serializeU32 age ++
        serializeU32 1 ++ writeStr s
    ∧ humanSerialize ⟨age, none⟩ = writeMapLen 1 ++ serializeU32 0 ++ serializeU32 age
    ∧ humanDeserialize (humanSerialize ⟨age, none⟩) = .ok (⟨age, none⟩, [])
    ∧ humanDeserialize (humanSerialize ⟨age, some s⟩) = .ok (⟨age, some s⟩, []) := by
  refine ⟨rfl, rfl, by simp [humanSerialize, humanSerializeFields, humanCountFields,
    List.append_assoc], by simp [humanSerialize, humanSerializeFields,
    humanCountFields], ?_, ?_⟩
  · rw [show humanSerialize ⟨age, none⟩
        = writeMapLen 1 ++ (serializeU32 0 ++ serializeU32 age) by
      simp [humanSerialize, humanSerializeFields, humanCountFields]]
    unfold humanDeserialize
    rw [readToken_writeMapLen 1 (by norm_num)]
    have h1 := deserializeU32_serializeU32 0 (by norm_num) (serializeU32 age)
    have h2 : deserializeU32 (serializeU32 age) = .ok (age, []) := by
      have hx := deserializeU32_serializeU32 age hage []
      rwa [List.append_nil] at hx
    simp [humanDeserializeLoop, h1, h2]
  · rw [show humanSerialize ⟨age, some s⟩
        = writeMapLen 2 ++ (serializeU32 0 ++ (serializeU32 age ++
          (serializeU32 1 ++ writeStr s))) by
      simp [humanSerialize, humanSerializeFields, humanCountFields, List.append_assoc]]
    unfold humanDeserialize
    rw [readToken_writeMapLen 2 (by norm_num)]
    have h1 := deserializeU32_serializeU32 0 (by norm_num)
      (serializeU32 age ++ (serializeU32 1 ++ writeStr s))
    have h2 := deserializeU32_serializeU32 age hage (serializeU32 1 ++ writeStr s)
    have h3 := deserializeU32_serializeU32 1 (by norm_num) (writeStr s)
    have h4 : deserializeString (writeStr s) = .ok (s, []) := by
      have hx := deserializeString_writeStr s hslen hs []
      rwa [List.append_nil] at hx
    simp [humanDeserializeLoop, h1, h2, h3, h4]

theorem C7_optional_field_witness :
    ((42 : Nat) < 2 ^ 32 ∧ utf8Valid [74, 111, 104, 110] = true
      ∧ ([74, 111, 104, 110] : List Nat).length < 2 ^ 32)
    ∧ humanCountFields ⟨42, some [74, 111, 104, 110]⟩ = 2
    ∧ humanCountFields ⟨42, none⟩ = 1
    ∧ humanDeserialize (humanSerialize ⟨42, none⟩) = .ok (⟨42, none⟩, []) :=
  ⟨⟨by norm_num, by decide, by norm_num⟩,
    (C7_optional_field 42 (by norm_num) [74, 111, 104, 110] (by decide)
      (by norm_num)).1,
    (C7_optional_field 42 (by norm_num) [74, 111, 104, 110] (by decide)
      (by norm_num)).2.1,
    (C7_optional_field 42 (by norm_num) [74, 111, 104, 110] (by decide)
      (by norm_num)).2.2.2.2.1⟩

end Msgpack
